import Mathlib

/-!
Shallow embedding of the YUFS in-memory filesystem core
(`src/src/yufs_core.c`, the `__RAM_VERSION__` build, which is the local
namespace engine this repository implements).

Modelling conventions:
* Machine pointers become arena indices.  The global `inodeTable` becomes a
  total function `Nat → Option YUFS_Inode` (an entry is `none` where the C
  array holds `NULL`).  Heap-allocated `YUFS_Dirent` objects live in an
  arena `dentries : Nat → Option YUFS_Dirent`; `nextDid` is the next fresh
  arena index, so every live dentry index is `< nextDid` in states produced
  by the operations.
* `malloc` is assumed to succeed (the C failure branches are kept where
  they shape control flow, but are dead in the model).  `allocInode` still
  fails when the table is full, exactly as in C.
* Undefined behaviour (dereferencing `NULL` or a dangling pointer, and the
  unchecked `strcpy` into the 256-byte `name` buffer in `allocDirent`)
  is modelled by the operation returning `none`.  A clean C return value
  `r` together with the post state `s'` is modelled as `some (r, s')`.
* `size_t`/`uint32_t` become `Nat`; `int` results become `Int`;
  `loff_t` offsets are modelled as `Nat` (the claims under study only
  concern non-negative offsets).  File bytes are `Nat` values.
* The unbounded `while` loops walking `next_sibling` chains are totalised:
  `find_child` walks with fuel `nextDid + 1`, which is enough for every
  acyclic chain of live dentries; the directory iterator takes an explicit
  fuel argument because its (un)boundedness is itself under study.
-/

def MAX_FILES : Nat := 1024
def ROOT_INO : Nat := 1000
def MAX_NAME_SIZE : Nat := 256

/-- POSIX file-type mask `S_IFMT` (octal 0170000). -/
def S_IFMT : Nat := 61440
/-- POSIX directory type bit `S_IFDIR` (octal 0040000). -/
def S_IFDIR : Nat := 16384
/-- POSIX regular-file type bit `S_IFREG` (octal 0100000). -/
def S_IFREG : Nat := 32768

/-- `S_ISDIR(m)` from the platform header: `((m) & S_IFMT) == S_IFDIR`. -/
def S_ISDIR (m : Nat) : Bool := (m &&& S_IFMT) == S_IFDIR

/-- Regular-file test `((m) & S_IFMT) == S_IFREG` (used to state claims
about regular files). -/
def S_ISREG (m : Nat) : Bool := (m &&& S_IFMT) == S_IFREG

/-- `struct YUFS_Inode`: pointers became arena indices (`main_dentry`),
`content` is `none` where the C field is `NULL`. -/
structure YUFS_Inode where
  id : Nat
  mode : Nat
  nlink : Int
  content : Option (List Nat)
  size : Nat
  main_dentry : Option Nat
  deriving DecidableEq, Repr

/-- `struct YUFS_Dirent`: the four dentry pointers became optional arena
indices; `name` is the NUL-terminated string stored by `strcpy`. -/
structure YUFS_Dirent where
  name : String
  inode_id : Nat
  parent : Option Nat
  first_child : Option Nat
  next_sibling : Option Nat
  prev_sibling : Option Nat
  deriving DecidableEq, Repr

/-- `struct YUFS_stat` from `yufs_core.h`. -/
structure YUFS_stat where
  id : Nat
  mode : Nat
  size : Nat
  deriving DecidableEq, Repr

/-- The whole mutable state of the core: the global `inodeTable` plus the
heap of dentry objects. -/
structure State where
  inodeTable : Nat → Option YUFS_Inode
  dentries : Nat → Option YUFS_Dirent
  nextDid : Nat

/-- Store `v` in the inode table slot `i`. -/
def setInode (s : State) (i : Nat) (v : Option YUFS_Inode) : State :=
  { s with inodeTable := fun j => if j = i then v else s.inodeTable j }

/-- Store `v` in the dentry arena slot `d`. -/
def setDent (s : State) (d : Nat) (v : Option YUFS_Dirent) : State :=
  { s with dentries := fun j => if j = d then v else s.dentries j }

/-- `allocInode`: linear probe of `inodeTable` over `i ∈ [1, MAX_FILES)`;
the first empty slot receives a zeroed inode with `id = i`, `nlink = 1`.
Returns the slot index (the C pointer) and the new state; `none` models the
"table full" failure. -/
def allocInode (s : State) : Option (Nat × State) :=
  match (List.range' 1 (MAX_FILES - 1)).find? (fun i => (s.inodeTable i).isNone) with
  | none => none
  | some i =>
      some (i, setInode s i (some
        { id := i, mode := 0, nlink := 1, content := none, size := 0, main_dentry := none }))

/-- `allocDirent(name, inode_id)`: a fresh zeroed dentry whose `name` is
filled by an unchecked `strcpy` into a `MAX_NAME_SIZE` buffer.  A name
longer than 255 bytes overflows that buffer, which is undefined behaviour:
modelled as `none`.  Otherwise returns the fresh arena index and state. -/
def allocDirent (s : State) (name : String) (inode_id : Nat) : Option (Nat × State) :=
  if name.length ≥ MAX_NAME_SIZE then none
  else
    some (s.nextDid,
      { s with
        dentries := fun j => if j = s.nextDid then
            some { name := name, inode_id := inode_id, parent := none,
                   first_child := none, next_sibling := none, prev_sibling := none }
          else s.dentries j,
        nextDid := s.nextDid + 1 })

/-- `freeInode(node)`: release the content and clear `inodeTable[node->id]`. -/
def freeInode (s : State) (node : YUFS_Inode) : State :=
  setInode s node.id none

/-- The value malloc leaves in bytes that are never initialised; only its
presence matters, never its value. -/
def UNINIT_BYTE : Nat := 170

/-- `yu_realloc(old, oldSz, newSz)`: a fresh buffer of `newSz` bytes, the
first `min oldSz newSz` bytes copied from `old`, the rest uninitialised.
`newSz = 0` frees and returns `NULL` (`none`). -/
def yu_realloc (old : Option (List Nat)) (oldSz newSz : Nat) : Option (List Nat) :=
  if newSz = 0 then none
  else
    let base :=
      match old with
      | none => []
      | some content => content.take (min oldSz newSz)
    some (base ++ List.replicate (newSz - base.length) UNINIT_BYTE)

/-- `memmove(content + off, data, data.length)` on a byte list. -/
def writeBytes (content : List Nat) (off : Nat) (data : List Nat) : List Nat :=
  content.take off ++ data ++ content.drop (off + data.length)

/-- `YUFSCore_init`: clear the table, allocate the root inode (landing in
slot 1), relabel it `ROOT_INO`, relocate it to slot `ROOT_INO`, give it
directory mode, and allocate its self-parented primary dentry.  `loc`
tracks the table slot where the `rootInode` object lives after the
relocation (the C code keeps mutating it through the same pointer). -/
def YUFSCore_init : Option (Int × State) :=
  let s0 : State := { inodeTable := fun _ => none, dentries := fun _ => none, nextDid := 0 }
  match allocInode s0 with
  | none => some (-1, s0)
  | some (i, s1) =>
    match s1.inodeTable i with
    | none => none
    | some r0 =>
      let s2 := setInode s1 i (some { r0 with id := ROOT_INO })
      let relocated := (s2.inodeTable 1).isSome
      let s3 :=
        match s2.inodeTable 1 with
        | some r => setInode (setInode s2 1 none) ROOT_INO (some r)
        | none => s2
      let loc := if relocated then ROOT_INO else i
      match s3.inodeTable loc with
      | none => none
      | some r2 =>
        let s4 := setInode s3 loc (some { r2 with mode := S_IFDIR ||| 511 })
        match allocDirent s4 "" ROOT_INO with
        | none => some (-1, s4)
        | some (d0, s5) =>
          match s5.dentries d0 with
          | none => none
          | some dd =>
            let s6 := setDent s5 d0 (some { dd with parent := some d0 })
            match s6.inodeTable loc with
            | none => none
            | some r3 =>
              some (0, setInode s6 loc (some { r3 with main_dentry := some d0 }))

/-- `YUFSCore_destroy`: free every live inode (content release is a no-op
at this level of abstraction; dentries are leaked exactly as in the C). -/
def YUFSCore_destroy (s : State) : State :=
  { s with inodeTable := fun _ => none }

/-- The `while (child)` loop body of `find_child`: walk `next_sibling`
links comparing names with `strcmp`.  Result `some (some d)` is a found
child, `some none` is the clean "not found" `NULL` return, and `none`
models a dangling pointer dereference or a walk that never reaches the end
of the list within `fuel` steps (the C loop is unbounded). -/
def walkFind (s : State) : Nat → Option Nat → String → Option (Option Nat)
  | _, none, _ => some none
  | 0, some _, _ => none
  | fuel + 1, some did, name =>
    match s.dentries did with
    | none => none
    | some d => if d.name = name then some (some did) else walkFind s fuel d.next_sibling name

/-- `find_child(parent, name)`: `parent` is the C dentry pointer; the
first thing the loop does is read `parent->first_child`, so a `NULL`
parent is undefined behaviour (`none`).  The walk is totalised with fuel
`nextDid + 1`, which bounds every acyclic chain of live dentries. -/
def find_child (s : State) (parentDid : Option Nat) (name : String) : Option (Option Nat) :=
  match parentDid with
  | none => none
  | some pdid =>
    match s.dentries pdid with
    | none => none
    | some pd => walkFind s (s.nextDid + 1) pd.first_child name

/-- `YUFSCore_lookup(parent_id, name, result)`: returns the C status and
the stat written through `result` on success. -/
def YUFSCore_lookup (s : State) (parent_id : Nat) (name : String) :
    Option (Int × Option YUFS_stat) :=
  if parent_id ≥ MAX_FILES then some (-1, none)
  else
    match s.inodeTable parent_id with
    | none => some (-1, none)
    | some parentNode =>
      if ¬ S_ISDIR parentNode.mode then some (-1, none)
      else
        match parentNode.main_dentry with
        | none => some (-1, none)
        | some md =>
          match find_child s (some md) name with
          | none => none
          | some none => some (-1, none)
          | some (some cdid) =>
            match s.dentries cdid with
            | none => none
            | some child =>
              if child.inode_id ≥ MAX_FILES then none
              else
                match s.inodeTable child.inode_id with
                | none => some (-1, none)
                | some inode =>
                  some (0, some { id := inode.id, mode := inode.mode, size := inode.size })

/-- Last statement of `attach_dentry`: `parent->first_child = child`
(re-reading the parent dentry, so aliased indices behave like aliased
pointers). -/
def attach_finish (s : State) (parentDid childDid : Nat) : Option State :=
  match s.dentries parentDid with
  | none => none
  | some pd3 => some (setDent s parentDid (some { pd3 with first_child := some childDid }))

/-- Third statement of `attach_dentry`:
`if (parent->first_child) parent->first_child->prev_sibling = child;`
followed by the final statement. -/
def attach_prevfix (s : State) (parentDid childDid : Nat) : Option State :=
  match s.dentries parentDid with
  | none => none
  | some pd2 =>
    match pd2.first_child with
    | none => attach_finish s parentDid childDid
    | some fc =>
      match s.dentries fc with
      | none => none
      | some fcd =>
        attach_finish (setDent s fc (some { fcd with prev_sibling := some childDid }))
          parentDid childDid

/-- `attach_dentry(parent, child)`: statement-by-statement image of the C
body (`child->parent = parent; child->next_sibling = parent->first_child;`
then `attach_prevfix`), re-reading the arena between assignments so that
aliased indices behave exactly like aliased pointers.  `none` models a
dangling index dereference (the `NULL`-parent crash is handled at each
call site, where the C passes the raw pointer in). -/
def attach_dentry (s : State) (parentDid childDid : Nat) : Option State :=
  match s.dentries childDid with
  | none => none
  | some cd =>
    let s1 := setDent s childDid (some { cd with parent := some parentDid })
    match s1.dentries parentDid with
    | none => none
    | some pd1 =>
      match s1.dentries childDid with
      | none => none
      | some cd1 =>
        attach_prevfix (setDent s1 childDid (some { cd1 with next_sibling := pd1.first_child }))
          parentDid childDid

/-- `YUFSCore_create(parent_id, name, mode, result)`: returns the C
status, the stat written through `result`, and the post state. -/
def YUFSCore_create (s : State) (parent_id : Nat) (name : String) (mode : Nat) :
    Option (Int × Option YUFS_stat × State) :=
  if parent_id ≥ MAX_FILES then some (-1, none, s)
  else
    match s.inodeTable parent_id with
    | none => some (-1, none, s)
    | some parentInode =>
      if ¬ S_ISDIR parentInode.mode then some (-1, none, s)
      else
        match allocInode s with
        | none => some (-1, none, s)
        | some (i, s1) =>
          match s1.inodeTable i with
          | none => none
          | some n0 =>
            let s2 := setInode s1 i (some { n0 with mode := mode })
            match allocDirent s2 name i with
            | none => none
            | some (d, s3) =>
              let s4 :=
                if S_ISDIR mode then
                  match s3.inodeTable i with
                  | none => s3
                  | some n1 => setInode s3 i (some { n1 with main_dentry := some d })
                else s3
              match parentInode.main_dentry with
              | none => none
              | some pdid =>
                match attach_dentry s4 pdid d with
                | none => none
                | some s5 =>
                  match s5.inodeTable i with
                  | none => none
                  | some nFin =>
                    some (0, some { id := nFin.id, mode := nFin.mode, size := nFin.size }, s5)

/-- `YUFSCore_link(target_id, parent_id, name)`. -/
def YUFSCore_link (s : State) (target_id parent_id : Nat) (name : String) :
    Option (Int × State) :=
  if target_id ≥ MAX_FILES then some (-1, s)
  else
    match s.inodeTable target_id with
    | none => some (-1, s)
    | some targetInode =>
      if parent_id ≥ MAX_FILES then some (-1, s)
      else
        match s.inodeTable parent_id with
        | none => some (-1, s)
        | some parentInode =>
          if S_ISDIR targetInode.mode then some (-1, s)
          else if ¬ S_ISDIR parentInode.mode then some (-1, s)
          else
            match allocDirent s name target_id with
            | none => none
            | some (d, s1) =>
              match parentInode.main_dentry with
              | none => none
              | some pdid =>
                match attach_dentry s1 pdid d with
                | none => none
                | some s2 =>
                  some (0, setInode s2 target_id
                    (some { targetInode with nlink := targetInode.nlink + 1 }))

/-- Second statement of the splice in `unlink`/`rmdir`:
`if (next) next->prev = prev;` for the captured dentry record `td`. -/
def spliceFixNext (s : State) (td : YUFS_Dirent) : Option State :=
  match td.next_sibling with
  | none => some s
  | some nx =>
    match s.dentries nx with
    | none => none
    | some nxd => some (setDent s nx (some { nxd with prev_sibling := td.prev_sibling }))

/-- The doubly-linked-list splice shared by `unlink` and `rmdir`:
`if (prev) prev->next = next; else parent->first_child = next;` then
`spliceFixNext`, for the captured dentry record `td`. -/
def spliceOut (s : State) (td : YUFS_Dirent) : Option State :=
  match td.prev_sibling with
  | some p =>
    match s.dentries p with
    | none => none
    | some pdnt =>
      spliceFixNext (setDent s p (some { pdnt with next_sibling := td.next_sibling })) td
  | none =>
    match td.parent with
    | none => none
    | some par =>
      match s.dentries par with
      | none => none
      | some pard =>
        spliceFixNext (setDent s par (some { pard with first_child := td.next_sibling })) td

/-- `YUFSCore_unlink(parent_id, name)`: note the absence of any check that
the parent inode is a directory — for a regular-file parent,
`main_dentry` is `NULL` and `find_child` dereferences it. -/
def YUFSCore_unlink (s : State) (parent_id : Nat) (name : String) :
    Option (Int × State) :=
  if parent_id ≥ MAX_FILES then some (-1, s)
  else
    match s.inodeTable parent_id with
    | none => some (-1, s)
    | some parentInode =>
      match find_child s parentInode.main_dentry name with
      | none => none
      | some none => some (-1, s)
      | some (some tdid) =>
        match s.dentries tdid with
        | none => none
        | some targetDirent =>
          if targetDirent.inode_id ≥ MAX_FILES then none
          else
            match s.inodeTable targetDirent.inode_id with
            | none => none
            | some targetInode =>
              if S_ISDIR targetInode.mode then some (-1, s)
              else
                match spliceOut s targetDirent with
                | none => none
                | some sB =>
                  let sC := setDent sB tdid none
                  let newNlink := targetInode.nlink - 1
                  let sD := setInode sC targetDirent.inode_id
                    (some { targetInode with nlink := newNlink })
                  if newNlink ≤ 0 then
                    some (0, freeInode sD { targetInode with nlink := newNlink })
                  else some (0, sD)

/-- `YUFSCore_rmdir(parent_id, name)`: same missing parent-directory check
as `unlink`; additionally requires the target directory to be empty. -/
def YUFSCore_rmdir (s : State) (parent_id : Nat) (name : String) :
    Option (Int × State) :=
  if parent_id ≥ MAX_FILES then some (-1, s)
  else
    match s.inodeTable parent_id with
    | none => some (-1, s)
    | some parentInode =>
      match find_child s parentInode.main_dentry name with
      | none => none
      | some none => some (-1, s)
      | some (some tdid) =>
        match s.dentries tdid with
        | none => none
        | some targetDirent =>
          if targetDirent.inode_id ≥ MAX_FILES then none
          else
            match s.inodeTable targetDirent.inode_id with
            | none => none
            | some targetInode =>
              if ¬ S_ISDIR targetInode.mode then some (-1, s)
              else
                match targetInode.main_dentry with
                | none => none
                | some mdd =>
                  match s.dentries mdd with
                  | none => none
                  | some mddd =>
                    if mddd.first_child ≠ none then some (-1, s)
                    else
                      match spliceOut s targetDirent with
                      | none => none
                      | some sB =>
                        let sC := setDent sB tdid none
                        some (0, freeInode sC targetInode)

/-- `YUFSCore_read(id, buf, size, offset)`: returns the C status together
with the bytes copied into `buf` (empty when nothing is copied). -/
def YUFSCore_read (s : State) (id : Nat) (size : Nat) (offset : Nat) :
    Int × List Nat :=
  if id ≥ MAX_FILES then (-1, [])
  else
    match s.inodeTable id with
    | none => (-1, [])
    | some node =>
      if S_ISDIR node.mode then (-1, [])
      else
        match node.content with
        | none => (0, [])
        | some c =>
          if offset ≥ node.size then (0, [])
          else
            let available := node.size - offset
            let to_read := if size < available then size else available
            ((to_read : Int), (c.drop offset).take to_read)

/-- `YUFSCore_write(id, buf, size, offset)`: grow-on-write with zero fill
of the gap `[node.size, offset)`.  The caller's buffer is `buf`; the C
`memmove` reads its first `size` bytes (reading past the end of the
caller's buffer is the caller's undefined behaviour, not the core's, so
the model simply copies `buf.take size`). -/
def YUFSCore_write (s : State) (id : Nat) (buf : List Nat) (size : Nat) (offset : Nat) :
    Option (Int × State) :=
  if id ≥ MAX_FILES then some (-1, s)
  else
    match s.inodeTable id with
    | none => some (-1, s)
    | some node =>
      if S_ISDIR node.mode then some (-1, s)
      else
        let new_end := offset + size
        if new_end > node.size then
          match yu_realloc node.content node.size new_end with
          | none => some (-1, s)
          | some c1 =>
            let c2 :=
              if offset > node.size then
                writeBytes c1 node.size (List.replicate (offset - node.size) 0)
              else c1
            let c3 := writeBytes c2 offset (buf.take size)
            some ((size : Int),
              setInode s id (some { node with content := some c3, size := new_end }))
        else
          match node.content with
          | none =>
            if size = 0 then some (0, s) else none
          | some c =>
            some ((size : Int),
              setInode s id (some { node with content := some (writeBytes c offset (buf.take size)) }))

/-- `YUFSCore_getattr(id, result)`. -/
def YUFSCore_getattr (s : State) (id : Nat) : Int × Option YUFS_stat :=
  if id ≥ MAX_FILES then (-1, none)
  else
    match s.inodeTable id with
    | none => (-1, none)
    | some node => (0, some { id := node.id, mode := node.mode, size := node.size })

/-- The skip loop of `YUFSCore_iterate`:
`while (child && skip > 0) { child = child->next_sibling; skip--; }`.
The loop is bounded by `skip` itself; `none` models a dangling pointer. -/
def iterSkip (s : State) : Nat → Option Nat → Option (Option Nat)
  | _, none => some none
  | 0, c => some c
  | k + 1, some did =>
    match s.dentries did with
    | none => none
    | some d => iterSkip s k d.next_sibling

/-- The emission loop of `YUFSCore_iterate`: for each child, look up its
inode (the C dereferences it with no `NULL` check) and call the callback
with `(ctx, child->name, strlen(child->name), childInode->id,
childInode->mode)`.  The C loop is unbounded, hence the fuel; `none`
models fuel exhaustion (the walk never finished) or a dangling/`NULL`
dereference. -/
def iterEmit {σ : Type} (s : State) (cb : σ → String → Nat → Nat → Nat → σ × Bool) :
    Nat → Option Nat → σ → Option (σ × Int)
  | _, none, ctx => some (ctx, 0)
  | 0, some _, _ => none
  | fuel + 1, some did, ctx =>
    match s.dentries did with
    | none => none
    | some d =>
      if d.inode_id ≥ MAX_FILES then none
      else
        match s.inodeTable d.inode_id with
        | none => none
        | some childInode =>
          match cb ctx d.name d.name.length childInode.id childInode.mode with
          | (ctx1, false) => some (ctx1, 0)
          | (ctx1, true) => iterEmit s cb fuel d.next_sibling ctx1

/-- The tail of `YUFSCore_iterate` after the two synthetic entries: read
`inode->main_dentry->first_child`, skip `offset - 2` children, emit the
rest. -/
def yufsIterChildren {σ : Type} (s : State) (md : Nat)
    (cb : σ → String → Nat → Nat → Nat → σ × Bool) (ctx : σ) (offset fuel : Nat) :
    Option (σ × Int) :=
  match s.dentries md with
  | none => none
  | some dmd =>
    let skip := if offset > 2 then offset - 2 else 0
    match iterSkip s skip dmd.first_child with
    | none => none
    | some child => iterEmit s cb fuel child ctx

/-- The `offset == 1` step of `YUFSCore_iterate`: emit `".."` with the id
and mode of `inodeTable[main_dentry->parent->inode_id]` (each of these
dereferences is unchecked in the C). -/
def yufsIterDots {σ : Type} (s : State) (md : Nat)
    (cb : σ → String → Nat → Nat → Nat → σ × Bool) (ctx : σ) (offset fuel : Nat) :
    Option (σ × Int) :=
  if offset = 1 then
    match s.dentries md with
    | none => none
    | some dmd =>
      match dmd.parent with
      | none => none
      | some pdid =>
        match s.dentries pdid with
        | none => none
        | some pdd =>
          if pdd.inode_id ≥ MAX_FILES then none
          else
            match s.inodeTable pdd.inode_id with
            | none => none
            | some pino =>
              match cb ctx ".." 2 pino.id pino.mode with
              | (ctx1, false) => some (ctx1, 0)
              | (ctx1, true) => yufsIterChildren s md cb ctx1 2 fuel
  else yufsIterChildren s md cb ctx offset fuel

/-- `YUFSCore_iterate(id, callback, ctx, offset)`: the callback is modelled
as a state-threading function on an arbitrary context type; its Boolean
tells the iterator to continue.  `fuel` totalises the unbounded child walk. -/
def YUFSCore_iterate {σ : Type} (s : State) (id : Nat)
    (cb : σ → String → Nat → Nat → Nat → σ × Bool) (ctx : σ) (offset : Nat) (fuel : Nat) :
    Option (σ × Int) :=
  if id ≥ MAX_FILES then some (ctx, -1)
  else
    match s.inodeTable id with
    | none => some (ctx, -1)
    | some inode =>
      if ¬ S_ISDIR inode.mode then some (ctx, -1)
      else
        match inode.main_dentry with
        | none => some (ctx, -1)
        | some md =>
          if offset = 0 then
            match cb ctx "." 1 inode.id inode.mode with
            | (ctx1, false) => some (ctx1, 0)
            | (ctx1, true) => yufsIterDots s md cb ctx1 1 fuel
          else yufsIterDots s md cb ctx offset fuel

/-- Specification-side view of a sibling chain: the list of arena indices
reached by following `next_sibling` from `c` until `NULL`, or `none` when
the chain dangles or does not terminate within `fuel` steps. -/
def chainDids (s : State) : Nat → Option Nat → Option (List Nat)
  | _, none => some []
  | 0, some _ => none
  | fuel + 1, some did =>
    match s.dentries did with
    | none => none
    | some d => (chainDids s fuel d.next_sibling).map (fun l => did :: l)

/-- One directory-entry emission as the host callback sees it:
`(name, name_len, id, mode)`. -/
abbrev Emission := String × Nat × Nat × Nat

/-- The always-accepting callback that records every emission. -/
def collectCb : List Emission → String → Nat → Nat → Nat → List Emission × Bool :=
  fun acc nm len i m => (acc ++ [(nm, len, i, m)], true)

/-- The always-accepting callback that merely counts emissions. -/
def countCb : Nat → String → Nat → Nat → Nat → Nat × Bool :=
  fun c _ _ _ _ => (c + 1, true)

/-- The emissions produced by a (fully live) child chain, as a function of
its arena indices. -/
def childEmissions (s : State) (kids : List Nat) : List Emission :=
  kids.filterMap (fun did =>
    (s.dentries did).bind (fun d =>
      (s.inodeTable d.inode_id).map (fun ino => (d.name, d.name.length, ino.id, ino.mode))))

/-- Mode word `0644 | S_IFREG` used by the repository's tests for files. -/
def regMode : Nat := S_IFREG ||| 420

/-- Mode word `0755 | S_IFDIR` used by the repository's tests for dirs. -/
def dirMode : Nat := S_IFDIR ||| 493

/-- A throw-away state used only to give total extractions a default. -/
def dfltState : State :=
  { inodeTable := fun _ => none, dentries := fun _ => none, nextDid := 0 }

/-- The state right after a successful `YUFSCore_init`. -/
def sInit : State :=
  match YUFSCore_init with
  | some (_, s) => s
  | none => dfltState

/-- `sInit` after `create(1000, "a", regMode)` (the new file gets id 1). -/
def sA : State :=
  match YUFSCore_create sInit 1000 "a" regMode with
  | some (_, _, s) => s
  | none => sInit

/-- `sA` after a second `create(1000, "a", regMode)` with the same name
(the duplicate gets id 2 and sits at the head of the child list). -/
def sAA : State :=
  match YUFSCore_create sA 1000 "a" regMode with
  | some (_, _, s) => s
  | none => sA

/-- A 255-byte file name (the longest that fits the dentry buffer). -/
def name255 : String := String.mk (List.replicate 255 'a')

/-- A 256-byte file name (one byte too long for the dentry buffer). -/
def name256 : String := String.mk (List.replicate 256 'a')

/-- The states produced by `init` and closed under the mutating operations
of the core (read, lookup, getattr and iterate do not mutate). -/
inductive Reachable : State → Prop where
  | init : ∀ r s, YUFSCore_init = some (r, s) → Reachable s
  | create : ∀ s p nm md r st s', Reachable s →
      YUFSCore_create s p nm md = some (r, st, s') → Reachable s'
  | link : ∀ s t p nm r s', Reachable s →
      YUFSCore_link s t p nm = some (r, s') → Reachable s'
  | unlink : ∀ s p nm r s', Reachable s →
      YUFSCore_unlink s p nm = some (r, s') → Reachable s'
  | rmdir : ∀ s p nm r s', Reachable s →
      YUFSCore_rmdir s p nm = some (r, s') → Reachable s'
  | write : ∀ s i b n o r s', Reachable s →
      YUFSCore_write s i b n o = some (r, s') → Reachable s'

/-- Slot `i` of the inode table is consistent: empty, or holding an inode
whose `id` field names its own slot. -/
def slotOK (s : State) (i : Nat) : Bool :=
  match s.inodeTable i with
  | none => true
  | some ino => ino.id == i

/-- The table invariant of claim C10: every populated slot in
`[0, MAX_FILES)` holds an inode whose `id` equals the slot index. -/
def TableOK (s : State) : Prop :=
  ∀ i, i < MAX_FILES → slotOK s i = true

/-- A deliberately corrupted state for the termination claim: directory
inode 5 whose single child dentry (arena index 1) is its own
`next_sibling`, giving a circular sibling list. -/
def circInode : YUFS_Inode :=
  { id := 5, mode := S_IFDIR ||| 511, nlink := 1, content := none, size := 0,
    main_dentry := some 0 }

/-- Primary dentry of the corrupted directory (self-parented). -/
def circD0 : YUFS_Dirent :=
  { name := "", inode_id := 5, parent := some 0, first_child := some 1,
    next_sibling := none, prev_sibling := none }

/-- The self-looping child dentry: `next_sibling` points back at itself. -/
def circD1 : YUFS_Dirent :=
  { name := "x", inode_id := 5, parent := some 0, first_child := none,
    next_sibling := some 1, prev_sibling := some 1 }

/-- State holding the circular directory of claim C6. -/
def circState : State :=
  { inodeTable := fun i => if i = 5 then some circInode else none,
    dentries := fun d => if d = 0 then some circD0 else if d = 1 then some circD1 else none,
    nextDid := 2 }

/-! ### Small facts about modes and state updates -/

theorem isreg_not_isdir {m : Nat} (h : S_ISREG m = true) : S_ISDIR m = false := by
  unfold S_ISREG at h
  unfold S_ISDIR
  rw [beq_iff_eq] at h
  rw [beq_eq_false_iff_ne, ne_eq, h]
  decide

theorem inodeTable_setDent (s : State) (d : Nat) (v : Option YUFS_Dirent) (j : Nat) :
    (setDent s d v).inodeTable j = s.inodeTable j := rfl

theorem dentries_setDent (s : State) (d : Nat) (v : Option YUFS_Dirent) (j : Nat) :
    (setDent s d v).dentries j = if j = d then v else s.dentries j := rfl

theorem inodeTable_setInode (s : State) (i : Nat) (v : Option YUFS_Inode) (j : Nat) :
    (setInode s i v).inodeTable j = if j = i then v else s.inodeTable j := rfl

theorem dentries_setInode (s : State) (i : Nat) (v : Option YUFS_Inode) (j : Nat) :
    (setInode s i v).dentries j = s.dentries j := rfl

/-! ### Settled closed claims -/

set_option maxRecDepth 40000 in
/-- Claim C8 (confirmed).  After a successful `init`, exactly one inode
exists; it sits in slot `ROOT_INO = 1000` with `id = 1000`, its mode has
the `IFDIR` file-type bits, its size is 0, its primary dentry (arena index
0) is self-parented with an empty child list, and `getattr(1000)` returns
`{id = 1000, mode = IFDIR ∣ 0777, size = 0}`. -/
theorem init_root_state :
    YUFSCore_init = some (0, sInit) ∧
    (List.range MAX_FILES).filter (fun i => (sInit.inodeTable i).isSome) = [1000] ∧
    sInit.inodeTable ROOT_INO =
      some { id := ROOT_INO, mode := S_IFDIR ||| 511, nlink := 1, content := none,
             size := 0, main_dentry := some 0 } ∧
    S_ISDIR (S_IFDIR ||| 511) = true ∧
    sInit.dentries 0 =
      some { name := "", inode_id := ROOT_INO, parent := some 0, first_child := none,
             next_sibling := none, prev_sibling := none } ∧
    YUFSCore_getattr sInit ROOT_INO = (0, some { id := ROOT_INO, mode := S_IFDIR ||| 511, size := 0 }) :=
  ⟨rfl, by decide, rfl, by decide, rfl, rfl⟩

set_option maxRecDepth 40000 in
/-- Claim C9 (code bug).  A 255-byte name is stored successfully, but the
claimed clean failure for a 256-byte name does not happen: `allocDirent`
copies the name with an unchecked `strcpy` into its 256-byte buffer, so a
256-byte name overflows the buffer (undefined behaviour, modelled `none`)
instead of returning `EINVAL`/`ENOSPC` with the state unchanged. -/
theorem create_name_bound_eval :
    name255.length = 255 ∧
    name256.length = 256 ∧
    (YUFSCore_create sInit 1000 name255 regMode).map (fun t => (t.1, t.2.1)) =
      some (0, some { id := 1, mode := regMode, size := 0 }) ∧
    YUFSCore_create sInit 1000 name256 regMode = none :=
  ⟨rfl, rfl, rfl, rfl⟩

/-- Stepping the emission loop once around the self-loop of `circState`
only bumps the context counter; by induction the loop never returns, at
any fuel. -/
theorem iterEmit_selfloop : ∀ (fuel acc : Nat),
    iterEmit circState countCb fuel (some 1) acc = none
  | 0, _ => rfl
  | fuel + 1, acc => by
    have h : iterEmit circState countCb (fuel + 1) (some 1) acc
        = iterEmit circState countCb fuel (some 1) (acc + 1) := rfl
    rw [h]
    exact iterEmit_selfloop fuel (acc + 1)

set_option maxRecDepth 400000 in
/-- Claim C6 (code bug).  The child walk of `YUFSCore_iterate` is not
bounded by `MAX_FILES` and reports no corruption error: on a directory
whose single child dentry is its own `next_sibling`, the emission loop
runs forever.  With fuel 1100 (comfortably above the claimed
`MAX_FILES = 1024` bound plus the two synthetic entries) the iterator has
still neither terminated nor returned any error. -/
theorem iterate_unbounded_walk_eval :
    circState.dentries 1 = some circD1 ∧
    circD1.next_sibling = some 1 ∧
    YUFSCore_iterate circState 5 countCb 0 0 1100 = none :=
  ⟨rfl, rfl, iterEmit_selfloop 1100 2⟩

/-! ### Byte-buffer lemmas for the content claims -/

theorem yu_realloc_isSome {old : Option (List Nat)} {oldSz newSz : Nat} (h : newSz ≠ 0) :
    ∃ c, yu_realloc old oldSz newSz = some c := by
  unfold yu_realloc
  rw [if_neg h]
  exact ⟨_, rfl⟩

theorem yu_realloc_length {old : Option (List Nat)} {oldSz newSz : Nat} {c : List Nat}
    (h : yu_realloc old oldSz newSz = some c) : c.length = newSz := by
  unfold yu_realloc at h
  by_cases h0 : newSz = 0
  · rw [if_pos h0] at h; cases h
  · rw [if_neg h0] at h
    cases old with
    | none =>
      injection h with h
      subst h
      simp only [List.length_append, List.length_replicate, List.length_nil]
      omega
    | some ct =>
      injection h with h
      subst h
      simp only [List.length_append, List.length_replicate, List.length_take]
      omega

theorem writeBytes_length {l data : List Nat} {off : Nat} (h : off + data.length ≤ l.length) :
    (writeBytes l off data).length = l.length := by
  unfold writeBytes
  simp only [List.length_append, List.length_take, List.length_drop]
  omega

theorem writeBytes_getElem_left {l data : List Nat} {off j : Nat} (hj : j < off)
    (hoff : off ≤ l.length) : (writeBytes l off data)[j]? = l[j]? := by
  unfold writeBytes
  have htk : j < (List.take off l).length := by
    simp only [List.length_take]
    omega
  have houter : j < (List.take off l ++ data).length := by
    simp only [List.length_append]
    omega
  rw [List.getElem?_append_left houter, List.getElem?_append_left htk,
    List.getElem?_take, if_pos hj]

theorem writeBytes_getElem_mid {l data : List Nat} {off j : Nat} (h1 : off ≤ j)
    (h2 : j - off < data.length) (hoff : off ≤ l.length) :
    (writeBytes l off data)[j]? = data[j - off]? := by
  unfold writeBytes
  have hlen : (List.take off l).length = off := by
    simp only [List.length_take]
    omega
  have houter : j < (List.take off l ++ data).length := by
    simp only [List.length_append, hlen]
    omega
  rw [List.getElem?_append_left houter,
    List.getElem?_append_right (by rw [hlen]; exact h1), hlen]

theorem drop_take_one_of_getElem {l : List Nat} {j a : Nat} (h : l[j]? = some a) :
    (l.drop j).take 1 = [a] := by
  have hj : j < l.length := by
    by_contra hc
    rw [List.getElem?_eq_none (by omega)] at h
    cases h
  have h2 : l[j] = a := by
    rw [List.getElem?_eq_getElem hj] at h
    injection h
  rw [List.drop_eq_getElem_cons hj]
  simp [h2]

/-- Claim C1 (confirmed).  Writing `n` bytes at an offset strictly past
the end of a live regular file grows the content to `offset + n` bytes,
sets the size to `offset + n`, and zero-fills the gap
`[prior_size, offset)`, so that each gap byte subsequently reads back as
a single zero byte. -/
theorem write_gap_zero_fill (s : State) (id : Nat) (node : YUFS_Inode) (buf : List Nat)
    (n off : Nat) (hlt : id < MAX_FILES) (hnode : s.inodeTable id = some node)
    (hreg : S_ISREG node.mode = true) (hgap : node.size < off) :
    ∃ s', YUFSCore_write s id buf n off = some ((n : Int), s') ∧
      ∃ node', s'.inodeTable id = some node' ∧
        node'.size = off + n ∧
        (∃ c, node'.content = some c ∧ c.length = off + n) ∧
        (∀ j, node.size ≤ j → j < off → YUFSCore_read s' id 1 j = (1, [0])) := by
  have hdir := isreg_not_isdir hreg
  obtain ⟨c1, hre⟩ := @yu_realloc_isSome node.content node.size (off + n) (by omega)
  have hlen1 : c1.length = off + n := yu_realloc_length hre
  have hlen2 : (writeBytes c1 node.size (List.replicate (off - node.size) 0)).length = off + n := by
    rw [writeBytes_length (by simp only [List.length_replicate]; omega)]
    exact hlen1
  have hlen3 : (writeBytes (writeBytes c1 node.size (List.replicate (off - node.size) 0)) off
      (buf.take n)).length = off + n := by
    rw [writeBytes_length (by simp only [List.length_take]; omega)]
    exact hlen2
  have hw : YUFSCore_write s id buf n off =
      some ((n : Int), setInode s id (some { node with
        content := some (writeBytes (writeBytes c1 node.size (List.replicate (off - node.size) 0))
          off (buf.take n)),
        size := off + n })) := by
    unfold YUFSCore_write
    rw [if_neg (by omega : ¬ id ≥ MAX_FILES), hnode]
    simp only [hdir, Bool.false_eq_true, if_false]
    rw [if_pos (by omega : off + n > node.size), hre]
    dsimp only
    rw [if_pos (by omega : off > node.size)]
  refine ⟨_, hw, ?_⟩
  refine ⟨{ node with
      content := some (writeBytes (writeBytes c1 node.size (List.replicate (off - node.size) 0))
        off (buf.take n)),
      size := off + n }, ?_, rfl, ⟨_, rfl, hlen3⟩, ?_⟩
  · rw [inodeTable_setInode, if_pos rfl]
  · intro j hj1 hj2
    have hbyte : (writeBytes (writeBytes c1 node.size (List.replicate (off - node.size) 0)) off
        (buf.take n))[j]? = some 0 := by
      rw [writeBytes_getElem_left hj2 (by omega)]
      rw [writeBytes_getElem_mid hj1 (by simp only [List.length_replicate]; omega) (by omega)]
      rw [List.getElem?_replicate, if_pos (by omega)]
    unfold YUFSCore_read
    rw [if_neg (by omega : ¬ id ≥ MAX_FILES), inodeTable_setInode, if_pos rfl]
    dsimp only
    simp only [hdir, Bool.false_eq_true, if_false]
    rw [if_neg (by omega : ¬ j ≥ off + n)]
    have hto : (if (1 : Nat) < off + n - j then (1 : Nat) else off + n - j) = 1 := by
      by_cases hc : (1 : Nat) < off + n - j
      · rw [if_pos hc]
      · rw [if_neg hc]
        omega
    rw [hto, drop_take_one_of_getElem hbyte]
    simp

/-- Witness for C1 at a concrete input: writing two bytes at offset 5 of
the empty regular file `"a"` (inode 1) of `sA`. -/
theorem write_gap_zero_fill_witness :
    (1 : Nat) < MAX_FILES ∧
    sA.inodeTable 1 = some { id := 1, mode := regMode, nlink := 1,
                             content := none, size := 0, main_dentry := none } ∧
    S_ISREG regMode = true ∧
    (∃ s', YUFSCore_write sA 1 [72, 73] 2 5 = some ((2 : Int), s') ∧
      ∃ node', s'.inodeTable 1 = some node' ∧
        node'.size = 5 + 2 ∧
        (∃ c, node'.content = some c ∧ c.length = 5 + 2) ∧
        (∀ j, (0 : Nat) ≤ j → j < 5 → YUFSCore_read s' 1 1 j = (1, [0]))) :=
  ⟨by decide, rfl, by decide,
    write_gap_zero_fill sA 1
      { id := 1, mode := regMode, nlink := 1, content := none, size := 0, main_dentry := none }
      [72, 73] 2 5 (by decide) rfl (by decide) (by decide)⟩

/-- Claim C2 (confirmed).  For a live regular file (with the reachable
content/size consistency `content = NULL → size = 0`), a successful
`write(f, b, n, 0)` followed by `read(f, out, n, 0)` returns `n` and
yields the first `n` bytes of `b`; and in general `read` copies
`min(size_argument, inode.size - offset)` bytes returning that count,
returning 0 when the content is absent or `offset ≥ inode.size`. -/
theorem write_read_roundtrip :
    (∀ (s : State) (id : Nat) (node : YUFS_Inode) (buf : List Nat) (n : Nat),
      id < MAX_FILES → s.inodeTable id = some node → S_ISREG node.mode = true →
      (node.content = none → node.size = 0) → n ≤ buf.length →
      ∃ s', YUFSCore_write s id buf n 0 = some ((n : Int), s') ∧
        YUFSCore_read s' id n 0 = ((n : Int), buf.take n)) ∧
    (∀ (s : State) (id : Nat) (node : YUFS_Inode) (sz off : Nat),
      id < MAX_FILES → s.inodeTable id = some node → S_ISDIR node.mode = false →
      (∀ c, node.content = some c → off < node.size →
          YUFSCore_read s id sz off =
            (((min sz (node.size - off) : Nat) : Int),
              (c.drop off).take (min sz (node.size - off)))) ∧
      (node.content = none → YUFSCore_read s id sz off = (0, [])) ∧
      (node.size ≤ off → YUFSCore_read s id sz off = (0, []))) := by
  constructor
  · intro s id node buf n hlt hnode hreg hcs hble
    have hdir := isreg_not_isdir hreg
    by_cases hgrow : 0 + n > node.size
    · obtain ⟨c1, hre⟩ := @yu_realloc_isSome node.content node.size (0 + n) (by omega)
      have hlen1 : c1.length = 0 + n := yu_realloc_length hre
      have hw : YUFSCore_write s id buf n 0 = some ((n : Int), setInode s id
          (some { node with content := some (writeBytes c1 0 (buf.take n)), size := 0 + n })) := by
        unfold YUFSCore_write
        rw [if_neg (by omega : ¬ id ≥ MAX_FILES), hnode]
        simp only [hdir, Bool.false_eq_true, if_false]
        rw [if_pos hgrow, hre]
        dsimp only
        rw [if_neg (by omega : ¬ (0 : Nat) > node.size)]
      have hc3 : writeBytes c1 0 (buf.take n) = buf.take n := by
        unfold writeBytes
        have h1 : (buf.take n).length = n := by
          simp only [List.length_take]
          omega
        rw [List.take_zero, List.nil_append, h1,
          List.drop_eq_nil_of_le (by omega), List.append_nil]
      refine ⟨_, hw, ?_⟩
      unfold YUFSCore_read
      rw [if_neg (by omega : ¬ id ≥ MAX_FILES), inodeTable_setInode, if_pos rfl]
      dsimp only
      simp only [hdir, Bool.false_eq_true, if_false]
      rw [hc3]
      rw [if_neg (by omega : ¬ (0 : Nat) ≥ 0 + n)]
      have ht : (if n < 0 + n - 0 then n else 0 + n - 0) = n := by
        by_cases h : n < 0 + n - 0
        · rw [if_pos h]
        · rw [if_neg h]
          omega
      rw [ht, List.drop_zero, List.take_of_length_le (by simp only [List.length_take]; omega)]
    · cases hcont : node.content with
      | none =>
        have hsz := hcs hcont
        have hn : n = 0 := by omega
        subst hn
        have hw : YUFSCore_write s id buf 0 0 = some (0, s) := by
          unfold YUFSCore_write
          rw [if_neg (by omega : ¬ id ≥ MAX_FILES), hnode]
          simp only [hdir, Bool.false_eq_true, if_false]
          rw [if_neg (by omega : ¬ 0 + 0 > node.size), hcont]
          simp
        refine ⟨s, hw, ?_⟩
        unfold YUFSCore_read
        rw [if_neg (by omega : ¬ id ≥ MAX_FILES), hnode]
        simp only [hdir, Bool.false_eq_true, if_false]
        rw [hcont]
        simp
      | some c =>
        have hw : YUFSCore_write s id buf n 0 = some ((n : Int), setInode s id
            (some { node with content := some (writeBytes c 0 (buf.take n)) })) := by
          unfold YUFSCore_write
          rw [if_neg (by omega : ¬ id ≥ MAX_FILES), hnode]
          simp only [hdir, Bool.false_eq_true, if_false]
          rw [if_neg hgrow, hcont]
        refine ⟨_, hw, ?_⟩
        unfold YUFSCore_read
        rw [if_neg (by omega : ¬ id ≥ MAX_FILES), inodeTable_setInode, if_pos rfl]
        dsimp only
        simp only [hdir, Bool.false_eq_true, if_false]
        by_cases hsz : node.size = 0
        · have hn : n = 0 := by omega
          subst hn
          rw [if_pos (by omega : (0 : Nat) ≥ node.size)]
          simp
        · rw [if_neg (by omega : ¬ (0 : Nat) ≥ node.size)]
          have ht : (if n < node.size - 0 then n else node.size - 0) = n := by
            by_cases h : n < node.size - 0
            · rw [if_pos h]
            · rw [if_neg h]
              omega
          rw [ht, List.drop_zero]
          have hwb : writeBytes c 0 (buf.take n) = buf.take n ++ c.drop (0 + (buf.take n).length) := by
            unfold writeBytes
            rw [List.take_zero, List.nil_append]
          have hl : (buf.take n).length = n := by
            simp only [List.length_take]
            omega
          rw [hwb, List.take_append_eq_append_take, hl, Nat.sub_self, List.take_zero,
            List.append_nil, List.take_of_length_le (by rw [hl])]
  · intro s id node sz off hlt hnode hdir
    refine ⟨?_, ?_, ?_⟩
    · intro c hc hoff
      unfold YUFSCore_read
      rw [if_neg (by omega : ¬ id ≥ MAX_FILES), hnode]
      simp only [hdir, Bool.false_eq_true, if_false]
      rw [hc]
      dsimp only
      rw [if_neg (by omega : ¬ off ≥ node.size)]
      have ht : (if sz < node.size - off then sz else node.size - off) =
          min sz (node.size - off) := by
        by_cases h : sz < node.size - off
        · rw [if_pos h]
          omega
        · rw [if_neg h]
          omega
      rw [ht]
    · intro hc
      unfold YUFSCore_read
      rw [if_neg (by omega : ¬ id ≥ MAX_FILES), hnode]
      simp only [hdir, Bool.false_eq_true, if_false]
      rw [hc]
    · intro hoff
      unfold YUFSCore_read
      rw [if_neg (by omega : ¬ id ≥ MAX_FILES), hnode]
      simp only [hdir, Bool.false_eq_true, if_false]
      cases hcont : node.content with
      | none => rfl
      | some c =>
        dsimp only
        rw [if_pos (by omega : off ≥ node.size)]

/-- Witness for C2 at a concrete input: writing `[9, 8, 7]` at offset 0
into the empty regular file of `sA` and reading it back; plus a read of
the untouched empty file. -/
theorem write_read_roundtrip_witness :
    (∃ s', YUFSCore_write sA 1 [9, 8, 7] 3 0 = some ((3 : Int), s') ∧
      YUFSCore_read s' 1 3 0 = ((3 : Int), List.take 3 [9, 8, 7])) ∧
    YUFSCore_read sA 1 4 0 = (0, []) :=
  ⟨write_read_roundtrip.1 sA 1
      { id := 1, mode := regMode, nlink := 1, content := none, size := 0, main_dentry := none }
      [9, 8, 7] 3 (by decide) rfl (by decide) (fun _ => rfl) (by decide),
    (write_read_roundtrip.2 sA 1
      { id := 1, mode := regMode, nlink := 1, content := none, size := 0, main_dentry := none }
      4 0 (by decide) rfl (by decide)).2.1 rfl⟩

/-! ### Preservation of the inode-table id invariant -/

theorem slotOK_setInode_self {s : State} {i : Nat} {ino : YUFS_Inode} (h : ino.id = i)
    (hok : TableOK s) : TableOK (setInode s i (some ino)) := by
  intro j hj
  unfold slotOK
  rw [inodeTable_setInode]
  by_cases hji : j = i
  · rw [if_pos hji]
    simp [h, hji]
  · rw [if_neg hji]
    exact hok j hj

theorem TableOK_setInode_none {s : State} {i : Nat} (hok : TableOK s) :
    TableOK (setInode s i none) := by
  intro j hj
  unfold slotOK
  rw [inodeTable_setInode]
  by_cases hji : j = i
  · rw [if_pos hji]
  · rw [if_neg hji]
    exact hok j hj

theorem TableOK_of_inodeTable_eq {s s' : State} (h : ∀ j, s'.inodeTable j = s.inodeTable j)
    (hok : TableOK s) : TableOK s' := by
  intro j hj
  unfold slotOK
  rw [h j]
  exact hok j hj

theorem allocInode_spec {s : State} {i : Nat} {s' : State} (h : allocInode s = some (i, s')) :
    1 ≤ i ∧ i < MAX_FILES ∧ s' = setInode s i (some
      { id := i, mode := 0, nlink := 1, content := none, size := 0, main_dentry := none }) := by
  unfold allocInode at h
  cases hf : (List.range' 1 (MAX_FILES - 1)).find? (fun k => (s.inodeTable k).isNone) with
  | none => rw [hf] at h; cases h
  | some k =>
    rw [hf] at h
    simp only [Option.some.injEq, Prod.mk.injEq] at h
    obtain ⟨h1, h2⟩ := h
    subst h1
    have hmem := List.mem_of_find?_eq_some hf
    rw [List.mem_range'_1] at hmem
    refine ⟨hmem.1, by unfold MAX_FILES at hmem ⊢; omega, h2.symm⟩

theorem allocDirent_spec {s : State} {nm : String} {iid d : Nat} {s' : State}
    (h : allocDirent s nm iid = some (d, s')) :
    d = s.nextDid ∧ s'.nextDid = s.nextDid + 1 ∧
    (∀ j, s'.inodeTable j = s.inodeTable j) ∧
    (∀ j, s'.dentries j = if j = s.nextDid then
        some { name := nm, inode_id := iid, parent := none, first_child := none,
               next_sibling := none, prev_sibling := none }
      else s.dentries j) := by
  unfold allocDirent at h
  by_cases hlen : nm.length ≥ MAX_NAME_SIZE
  · rw [if_pos hlen] at h; cases h
  · rw [if_neg hlen] at h
    simp only [Option.some.injEq, Prod.mk.injEq] at h
    obtain ⟨h1, h2⟩ := h
    subst h1
    subst h2
    exact ⟨rfl, rfl, fun j => rfl, fun j => rfl⟩

theorem attach_finish_state {s : State} {p c : Nat} {s' : State}
    (h : attach_finish s p c = some s') :
    (∀ j, s'.inodeTable j = s.inodeTable j) ∧ s'.nextDid = s.nextDid := by
  unfold attach_finish at h
  split at h
  · exact Option.noConfusion h
  · injection h with h
    subst h
    exact ⟨fun j => rfl, rfl⟩

theorem attach_prevfix_state {s : State} {p c : Nat} {s' : State}
    (h : attach_prevfix s p c = some s') :
    (∀ j, s'.inodeTable j = s.inodeTable j) ∧ s'.nextDid = s.nextDid := by
  unfold attach_prevfix at h
  split at h
  · exact Option.noConfusion h
  · split at h
    · exact attach_finish_state h
    · split at h
      · exact Option.noConfusion h
      · obtain ⟨h1, h2⟩ := attach_finish_state h
        exact ⟨fun j => h1 j, h2⟩

theorem attach_state {s : State} {p c : Nat} {s' : State}
    (h : attach_dentry s p c = some s') :
    (∀ j, s'.inodeTable j = s.inodeTable j) ∧ s'.nextDid = s.nextDid := by
  unfold attach_dentry at h
  split at h
  · exact Option.noConfusion h
  · dsimp only at h
    split at h
    · exact Option.noConfusion h
    · split at h
      · exact Option.noConfusion h
      · obtain ⟨h1, h2⟩ := attach_prevfix_state h
        exact ⟨fun j => h1 j, h2⟩

theorem attach_inodeTable {s : State} {p c : Nat} {s' : State}
    (h : attach_dentry s p c = some s') : ∀ j, s'.inodeTable j = s.inodeTable j :=
  (attach_state h).1

theorem attach_nextDid {s : State} {p c : Nat} {s' : State}
    (h : attach_dentry s p c = some s') : s'.nextDid = s.nextDid :=
  (attach_state h).2

theorem spliceFixNext_state {s : State} {td : YUFS_Dirent} {s' : State}
    (h : spliceFixNext s td = some s') :
    (∀ j, s'.inodeTable j = s.inodeTable j) ∧ s'.nextDid = s.nextDid := by
  unfold spliceFixNext at h
  split at h
  · injection h with h
    subst h
    exact ⟨fun j => rfl, rfl⟩
  · split at h
    · exact Option.noConfusion h
    · injection h with h
      subst h
      exact ⟨fun j => rfl, rfl⟩

theorem spliceOut_state {s : State} {td : YUFS_Dirent} {s' : State}
    (h : spliceOut s td = some s') :
    (∀ j, s'.inodeTable j = s.inodeTable j) ∧ s'.nextDid = s.nextDid := by
  unfold spliceOut at h
  split at h
  · split at h
    · exact Option.noConfusion h
    · obtain ⟨h1, h2⟩ := spliceFixNext_state h
      exact ⟨fun j => h1 j, h2⟩
  · split at h
    · exact Option.noConfusion h
    · split at h
      · exact Option.noConfusion h
      · obtain ⟨h1, h2⟩ := spliceFixNext_state h
        exact ⟨fun j => h1 j, h2⟩

theorem spliceOut_inodeTable {s : State} {td : YUFS_Dirent} {s' : State}
    (h : spliceOut s td = some s') : ∀ j, s'.inodeTable j = s.inodeTable j :=
  (spliceOut_state h).1

theorem TableOK_create {s : State} {p : Nat} {nm : String} {md : Nat} {r : Int}
    {st : Option YUFS_stat} {s' : State} (hok : TableOK s)
    (h : YUFSCore_create s p nm md = some (r, st, s')) : TableOK s' := by
  unfold YUFSCore_create at h
  by_cases h1 : p ≥ MAX_FILES
  · rw [if_pos h1] at h
    simp only [Option.some.injEq, Prod.mk.injEq] at h
    exact h.2.2 ▸ hok
  · rw [if_neg h1] at h
    cases hpt : s.inodeTable p with
    | none =>
      simp only [hpt, Option.some.injEq, Prod.mk.injEq] at h
      exact h.2.2 ▸ hok
    | some parentInode =>
      simp only [hpt] at h
      by_cases h2 : S_ISDIR parentInode.mode = true
      · rw [if_neg (by simp [h2])] at h
        cases hal : allocInode s with
        | none =>
          simp only [hal, Option.some.injEq, Prod.mk.injEq] at h
          exact h.2.2 ▸ hok
        | some pr =>
          obtain ⟨i, s1⟩ := pr
          obtain ⟨hi1, hi2, hs1⟩ := allocInode_spec hal
          have hok1 : TableOK s1 := hs1 ▸ slotOK_setInode_self rfl hok
          have hs1i : s1.inodeTable i = some
              { id := i, mode := 0, nlink := 1, content := none, size := 0,
                main_dentry := none } := by
            rw [hs1, inodeTable_setInode, if_pos rfl]
          simp only [hal, hs1i] at h
          cases had : allocDirent (setInode s1 i (some
              { id := i, mode := md, nlink := 1, content := none, size := 0,
                main_dentry := none })) nm i with
          | none => rw [had] at h; cases h
          | some pr2 =>
            obtain ⟨d, s3⟩ := pr2
            have hok2 : TableOK (setInode s1 i (some
                { id := i, mode := md, nlink := 1, content := none, size := 0,
                  main_dentry := none })) := slotOK_setInode_self rfl hok1
            obtain ⟨hd1, hd2, hd3, hd4⟩ := allocDirent_spec had
            have hok3 : TableOK s3 := TableOK_of_inodeTable_eq hd3 hok2
            simp only [had] at h
            set s4 := if S_ISDIR md = true then
                match s3.inodeTable i with
                | none => s3
                | some n1 => setInode s3 i (some { n1 with main_dentry := some d })
              else s3 with hs4
            have hok4 : TableOK s4 := by
              rw [hs4]
              by_cases hmd : S_ISDIR md = true
              · rw [if_pos hmd]
                cases h3i : s3.inodeTable i with
                | none => exact hok3
                | some n1 =>
                  have hid : n1.id = i := by
                    have := hok3 i hi2
                    unfold slotOK at this
                    rw [h3i] at this
                    simpa using this
                  exact slotOK_setInode_self (by simp [hid]) hok3
              · rw [if_neg hmd]
                exact hok3
            cases hmde : parentInode.main_dentry with
            | none => rw [hmde] at h; cases h
            | some pdid =>
              simp only [hmde] at h
              cases hat : attach_dentry s4 pdid d with
              | none => rw [hat] at h; cases h
              | some s5 =>
                have hok5 : TableOK s5 := TableOK_of_inodeTable_eq (attach_inodeTable hat) hok4
                simp only [hat] at h
                cases h5i : s5.inodeTable i with
                | none => rw [h5i] at h; cases h
                | some nFin =>
                  simp only [h5i, Option.some.injEq, Prod.mk.injEq] at h
                  exact h.2.2 ▸ hok5
      · rw [if_pos (by simp [h2])] at h
        simp only [Option.some.injEq, Prod.mk.injEq] at h
        exact h.2.2 ▸ hok

theorem TableOK_link {s : State} {t p : Nat} {nm : String} {r : Int} {s' : State}
    (hok : TableOK s) (h : YUFSCore_link s t p nm = some (r, s')) : TableOK s' := by
  unfold YUFSCore_link at h
  by_cases h1 : t ≥ MAX_FILES
  · rw [if_pos h1] at h
    simp only [Option.some.injEq, Prod.mk.injEq] at h
    exact h.2 ▸ hok
  · rw [if_neg h1] at h
    cases htt : s.inodeTable t with
    | none =>
      simp only [htt, Option.some.injEq, Prod.mk.injEq] at h
      exact h.2 ▸ hok
    | some targetInode =>
      simp only [htt] at h
      by_cases h2 : p ≥ MAX_FILES
      · rw [if_pos h2] at h
        simp only [Option.some.injEq, Prod.mk.injEq] at h
        exact h.2 ▸ hok
      · rw [if_neg h2] at h
        cases hpt : s.inodeTable p with
        | none =>
          simp only [hpt, Option.some.injEq, Prod.mk.injEq] at h
          exact h.2 ▸ hok
        | some parentInode =>
          simp only [hpt] at h
          by_cases h3 : S_ISDIR targetInode.mode = true
          · rw [if_pos h3] at h
            simp only [Option.some.injEq, Prod.mk.injEq] at h
            exact h.2 ▸ hok
          · rw [if_neg h3] at h
            by_cases h4 : S_ISDIR parentInode.mode = true
            · rw [if_neg (by simp [h4])] at h
              cases had : allocDirent s nm t with
              | none => rw [had] at h; cases h
              | some pr =>
                obtain ⟨d, s1⟩ := pr
                simp only [had] at h
                obtain ⟨-, -, hd3, -⟩ := allocDirent_spec had
                cases hmd : parentInode.main_dentry with
                | none => rw [hmd] at h; cases h
                | some pdid =>
                  simp only [hmd] at h
                  cases hat : attach_dentry s1 pdid d with
                  | none => rw [hat] at h; cases h
                  | some s2 =>
                    simp only [hat, Option.some.injEq, Prod.mk.injEq] at h
                    have hok2 : TableOK s2 := TableOK_of_inodeTable_eq
                      (fun j => (attach_inodeTable hat j).trans (hd3 j)) hok
                    have hid : targetInode.id = t := by
                      have hs := hok t (by omega)
                      unfold slotOK at hs
                      rw [htt] at hs
                      simpa using hs
                    exact h.2 ▸ slotOK_setInode_self (by simp [hid]) hok2
            · rw [if_pos (by simp [h4])] at h
              simp only [Option.some.injEq, Prod.mk.injEq] at h
              exact h.2 ▸ hok

theorem TableOK_unlink {s : State} {p : Nat} {nm : String} {r : Int} {s' : State}
    (hok : TableOK s) (h : YUFSCore_unlink s p nm = some (r, s')) : TableOK s' := by
  unfold YUFSCore_unlink at h
  by_cases h1 : p ≥ MAX_FILES
  · rw [if_pos h1] at h
    simp only [Option.some.injEq, Prod.mk.injEq] at h
    exact h.2 ▸ hok
  · rw [if_neg h1] at h
    cases hpt : s.inodeTable p with
    | none =>
      simp only [hpt, Option.some.injEq, Prod.mk.injEq] at h
      exact h.2 ▸ hok
    | some parentInode =>
      simp only [hpt] at h
      cases hfc : find_child s parentInode.main_dentry nm with
      | none => rw [hfc] at h; cases h
      | some oc =>
        cases oc with
        | none =>
          simp only [hfc, Option.some.injEq, Prod.mk.injEq] at h
          exact h.2 ▸ hok
        | some tdid =>
          simp only [hfc] at h
          cases htd : s.dentries tdid with
          | none => rw [htd] at h; cases h
          | some targetDirent =>
            simp only [htd] at h
            by_cases h2 : targetDirent.inode_id ≥ MAX_FILES
            · rw [if_pos h2] at h; cases h
            · rw [if_neg h2] at h
              cases hti : s.inodeTable targetDirent.inode_id with
              | none => rw [hti] at h; cases h
              | some targetInode =>
                simp only [hti] at h
                by_cases h3 : S_ISDIR targetInode.mode = true
                · rw [if_pos h3] at h
                  simp only [Option.some.injEq, Prod.mk.injEq] at h
                  exact h.2 ▸ hok
                · rw [if_neg h3] at h
                  cases hsp : spliceOut s targetDirent with
                  | none => rw [hsp] at h; cases h
                  | some sB =>
                    simp only [hsp] at h
                    have hokB : TableOK sB :=
                      TableOK_of_inodeTable_eq (spliceOut_inodeTable hsp) hok
                    have hokC : TableOK (setDent sB tdid none) :=
                      TableOK_of_inodeTable_eq (fun j => rfl) hokB
                    have hid : targetInode.id = targetDirent.inode_id := by
                      have hs := hok targetDirent.inode_id (by omega)
                      unfold slotOK at hs
                      rw [hti] at hs
                      simpa using hs
                    have hokD : TableOK (setInode (setDent sB tdid none) targetDirent.inode_id
                        (some { targetInode with nlink := targetInode.nlink - 1 })) :=
                      slotOK_setInode_self (by simp [hid]) hokC
                    by_cases h4 : targetInode.nlink - 1 ≤ 0
                    · rw [if_pos h4] at h
                      simp only [Option.some.injEq, Prod.mk.injEq] at h
                      exact h.2 ▸ TableOK_setInode_none hokD
                    · rw [if_neg h4] at h
                      simp only [Option.some.injEq, Prod.mk.injEq] at h
                      exact h.2 ▸ hokD

theorem TableOK_rmdir {s : State} {p : Nat} {nm : String} {r : Int} {s' : State}
    (hok : TableOK s) (h : YUFSCore_rmdir s p nm = some (r, s')) : TableOK s' := by
  unfold YUFSCore_rmdir at h
  by_cases h1 : p ≥ MAX_FILES
  · rw [if_pos h1] at h
    simp only [Option.some.injEq, Prod.mk.injEq] at h
    exact h.2 ▸ hok
  · rw [if_neg h1] at h
    cases hpt : s.inodeTable p with
    | none =>
      simp only [hpt, Option.some.injEq, Prod.mk.injEq] at h
      exact h.2 ▸ hok
    | some parentInode =>
      simp only [hpt] at h
      cases hfc : find_child s parentInode.main_dentry nm with
      | none => rw [hfc] at h; cases h
      | some oc =>
        cases oc with
        | none =>
          simp only [hfc, Option.some.injEq, Prod.mk.injEq] at h
          exact h.2 ▸ hok
        | some tdid =>
          simp only [hfc] at h
          cases htd : s.dentries tdid with
          | none => rw [htd] at h; cases h
          | some targetDirent =>
            simp only [htd] at h
            by_cases h2 : targetDirent.inode_id ≥ MAX_FILES
            · rw [if_pos h2] at h; cases h
            · rw [if_neg h2] at h
              cases hti : s.inodeTable targetDirent.inode_id with
              | none => rw [hti] at h; cases h
              | some targetInode =>
                simp only [hti] at h
                by_cases h3 : S_ISDIR targetInode.mode = true
                · rw [if_neg (by simp [h3])] at h
                  cases hmd : targetInode.main_dentry with
                  | none => rw [hmd] at h; cases h
                  | some mdd =>
                    simp only [hmd] at h
                    cases hmdd : s.dentries mdd with
                    | none => rw [hmdd] at h; cases h
                    | some mddd =>
                      simp only [hmdd] at h
                      by_cases h5 : mddd.first_child ≠ none
                      · rw [if_pos h5] at h
                        simp only [Option.some.injEq, Prod.mk.injEq] at h
                        exact h.2 ▸ hok
                      · rw [if_neg h5] at h
                        cases hsp : spliceOut s targetDirent with
                        | none => rw [hsp] at h; cases h
                        | some sB =>
                          simp only [hsp, Option.some.injEq, Prod.mk.injEq] at h
                          have hokB : TableOK sB :=
                            TableOK_of_inodeTable_eq (spliceOut_inodeTable hsp) hok
                          have hokC : TableOK (setDent sB tdid none) :=
                            TableOK_of_inodeTable_eq (fun j => rfl) hokB
                          exact h.2 ▸ TableOK_setInode_none hokC
                · rw [if_pos (by simp [h3])] at h
                  simp only [Option.some.injEq, Prod.mk.injEq] at h
                  exact h.2 ▸ hok

theorem TableOK_write {s : State} {id : Nat} {b : List Nat} {n off : Nat} {r : Int} {s' : State}
    (hok : TableOK s) (h : YUFSCore_write s id b n off = some (r, s')) : TableOK s' := by
  unfold YUFSCore_write at h
  by_cases h1 : id ≥ MAX_FILES
  · rw [if_pos h1] at h
    simp only [Option.some.injEq, Prod.mk.injEq] at h
    exact h.2 ▸ hok
  · rw [if_neg h1] at h
    cases hit : s.inodeTable id with
    | none =>
      simp only [hit, Option.some.injEq, Prod.mk.injEq] at h
      exact h.2 ▸ hok
    | some node =>
      simp only [hit] at h
      have hid : node.id = id := by
        have hs := hok id (by omega)
        unfold slotOK at hs
        rw [hit] at hs
        simpa using hs
      by_cases h2 : S_ISDIR node.mode = true
      · rw [if_pos h2] at h
        simp only [Option.some.injEq, Prod.mk.injEq] at h
        exact h.2 ▸ hok
      · rw [if_neg h2] at h
        by_cases h3 : off + n > node.size
        · rw [if_pos h3] at h
          cases hre : yu_realloc node.content node.size (off + n) with
          | none =>
            simp only [hre, Option.some.injEq, Prod.mk.injEq] at h
            exact h.2 ▸ hok
          | some c1 =>
            simp only [hre, Option.some.injEq, Prod.mk.injEq] at h
            exact h.2 ▸ slotOK_setInode_self (by simp [hid]) hok
        · rw [if_neg h3] at h
          cases hct : node.content with
          | none =>
            simp only [hct] at h
            by_cases h4 : n = 0
            · rw [if_pos h4] at h
              simp only [Option.some.injEq, Prod.mk.injEq] at h
              exact h.2 ▸ hok
            · rw [if_neg h4] at h; cases h
          | some c =>
            simp only [hct, Option.some.injEq, Prod.mk.injEq] at h
            exact h.2 ▸ slotOK_setInode_self (by simp [hid]) hok

set_option maxRecDepth 100000 in
theorem TableOK_init {r : Int} {s : State} (h : YUFSCore_init = some (r, s)) : TableOK s := by
  have e : YUFSCore_init = some ((0 : Int), sInit) := rfl
  rw [e] at h
  injection h with h
  injection h with h1 h2
  subst h2
  show ∀ i, i < MAX_FILES → slotOK sInit i = true
  decide

/-- Claim C10 (confirmed).  In every reachable state, every populated
inode-table slot in `[0, MAX_FILES)` holds an inode whose `id` field
equals its slot index; `init` establishes it by relocating the root inode
from slot 1 (where the allocator placed it) to slot 1000 after setting its
id to 1000, and every mutating operation preserves it. -/
theorem inode_table_id_invariant :
    (∀ s, Reachable s → TableOK s) ∧
    sInit.inodeTable 1 = none ∧
    sInit.inodeTable 1000 = some { id := 1000, mode := S_IFDIR ||| 511, nlink := 1,
                                   content := none, size := 0, main_dentry := some 0 } := by
  refine ⟨?_, rfl, rfl⟩
  intro s hs
  induction hs with
  | init r s h => exact TableOK_init h
  | create s p nm md r st s' hr h ih => exact TableOK_create ih h
  | link s t p nm r s' hr h ih => exact TableOK_link ih h
  | unlink s p nm r s' hr h ih => exact TableOK_unlink ih h
  | rmdir s p nm r s' hr h ih => exact TableOK_rmdir ih h
  | write s i b n o r s' hr h ih => exact TableOK_write ih h

/-- Witness for C10: the invariant holds at the concrete reachable state
`sAA` (root relocated to 1000, files 1 and 2 created), checked at slot 2. -/
theorem inode_table_id_invariant_witness : slotOK sAA 2 = true :=
  (inode_table_id_invariant.1 sAA
    (Reachable.create sA 1000 "a" regMode 0 (some { id := 2, mode := regMode, size := 0 }) sAA
      (Reachable.create sInit 1000 "a" regMode 0 (some { id := 1, mode := regMode, size := 0 }) sA
        (Reachable.init 0 sInit rfl) rfl) rfl)) 2 (by decide)

/-! ### Sibling-chain lemmas for the iterator and lookup claims -/

theorem chainDids_none {s : State} (f : Nat) : chainDids s f none = some [] := by
  cases f <;> rfl

theorem iterSkip_none {s : State} (k : Nat) : iterSkip s k none = some none := by
  cases k <;> rfl

theorem iterEmit_none {σ : Type} {s : State} {cb : σ → String → Nat → Nat → Nat → σ × Bool}
    (f : Nat) (ctx : σ) : iterEmit s cb f none ctx = some (ctx, 0) := by
  cases f <;> rfl

theorem chainDids_mono {s : State} : ∀ {f f' : Nat} {c : Option Nat} {l : List Nat},
    f ≤ f' → chainDids s f c = some l → chainDids s f' c = some l := by
  intro f
  induction f with
  | zero =>
    intro f' c l hle h
    cases c with
    | none =>
      rw [chainDids_none] at h
      injection h with h
      subst h
      exact chainDids_none f'
    | some did => cases h
  | succ f ih =>
    intro f' c l hle h
    cases c with
    | none =>
      rw [chainDids_none] at h
      injection h with h
      subst h
      exact chainDids_none f'
    | some did =>
      simp only [chainDids] at h
      cases hd : s.dentries did with
      | none => rw [hd] at h; cases h
      | some d =>
        rw [hd] at h
        obtain ⟨l', htail, hk⟩ := Option.map_eq_some'.mp h
        subst hk
        obtain ⟨f'', rfl⟩ : ∃ f'', f' = f'' + 1 := ⟨f' - 1, by omega⟩
        simp only [chainDids, hd]
        rw [ih (by omega) htail]
        rfl

theorem iterEmit_collect {s : State} : ∀ {f : Nat} {c : Option Nat} {kids : List Nat},
    chainDids s f c = some kids →
    (∀ did ∈ kids, ∃ d, s.dentries did = some d ∧ d.inode_id < MAX_FILES ∧
        (s.inodeTable d.inode_id).isSome = true) →
    ∀ acc, iterEmit s collectCb f c acc = some (acc ++ childEmissions s kids, 0) := by
  intro f
  induction f with
  | zero =>
    intro c kids hch hlive acc
    cases c with
    | none =>
      rw [chainDids_none] at hch
      injection hch with hch
      subst hch
      rw [iterEmit_none]
      simp [childEmissions]
    | some did => cases hch
  | succ f ih =>
    intro c kids hch hlive acc
    cases c with
    | none =>
      rw [chainDids_none] at hch
      injection hch with hch
      subst hch
      rw [iterEmit_none]
      simp [childEmissions]
    | some did =>
      simp only [chainDids] at hch
      cases hd : s.dentries did with
      | none => rw [hd] at hch; cases hch
      | some d =>
        rw [hd] at hch
        obtain ⟨l', htail, hk⟩ := Option.map_eq_some'.mp hch
        subst hk
        obtain ⟨d0, hd0, hmax, hsome⟩ := hlive did (List.mem_cons_self did l')
        rw [hd] at hd0
        have hdd : d0 = d := (Option.some.inj hd0).symm
        subst hdd
        simp only [iterEmit, hd]
        rw [if_neg (by omega : ¬ d0.inode_id ≥ MAX_FILES)]
        cases hti : s.inodeTable d0.inode_id with
        | none => rw [hti] at hsome; cases hsome
        | some ino =>
          simp only [hti, collectCb]
          rw [ih htail (fun k hk => hlive k (List.mem_cons_of_mem _ hk))
            (acc ++ [(d0.name, d0.name.length, ino.id, ino.mode)])]
          simp [childEmissions, List.filterMap_cons, hd, hti]

theorem iterSkip_chain {s : State} : ∀ (k : Nat) {f : Nat} {c : Option Nat} {kids : List Nat},
    chainDids s f c = some kids →
    ∃ c', iterSkip s k c = some c' ∧ chainDids s f c' = some (kids.drop k) := by
  intro k
  induction k with
  | zero =>
    intro f c kids hch
    cases c with
    | none => exact ⟨none, iterSkip_none 0, by simpa using hch⟩
    | some did => exact ⟨some did, rfl, by simpa using hch⟩
  | succ k ih =>
    intro f c kids hch
    cases c with
    | none =>
      rw [chainDids_none] at hch
      injection hch with hch
      subst hch
      exact ⟨none, iterSkip_none (k + 1), by simpa using @chainDids_none s f⟩
    | some did =>
      cases f with
      | zero => cases hch
      | succ f =>
        simp only [chainDids] at hch
        cases hd : s.dentries did with
        | none => rw [hd] at hch; cases hch
        | some d =>
          rw [hd] at hch
          obtain ⟨l', htail, hk⟩ := Option.map_eq_some'.mp hch
          subst hk
          obtain ⟨c', hskip, hch'⟩ := ih htail
          refine ⟨c', ?_, ?_⟩
          · simp only [iterSkip, hd]
            exact hskip
          · rw [List.drop_succ_cons]
            exact chainDids_mono (by omega) hch'

theorem childEmissions_drop {s : State} : ∀ (kids : List Nat) (k : Nat),
    (∀ did ∈ kids, ∃ d, s.dentries did = some d ∧ (s.inodeTable d.inode_id).isSome = true) →
    childEmissions s (kids.drop k) = (childEmissions s kids).drop k := by
  intro kids
  induction kids with
  | nil => intro k hlive; simp [childEmissions]
  | cons a t ih =>
    intro k hlive
    cases k with
    | zero => simp
    | succ k =>
      rw [List.drop_succ_cons, ih k (fun did hm => hlive did (List.mem_cons_of_mem _ hm))]
      obtain ⟨d, hd, hsome⟩ := hlive a (List.mem_cons_self a t)
      obtain ⟨ino, hino⟩ := Option.isSome_iff_exists.mp hsome
      simp [childEmissions, List.filterMap_cons, hd, hino]

theorem iterEmit_ret {σ : Type} {s : State} {cb : σ → String → Nat → Nat → Nat → σ × Bool} :
    ∀ {f : Nat} {c : Option Nat} {ctx : σ} {res : σ × Int},
      iterEmit s cb f c ctx = some res → res.2 = 0 := by
  intro f
  induction f with
  | zero =>
    intro c ctx res h
    cases c with
    | none =>
      rw [iterEmit_none] at h
      injection h with h
      subst h
      rfl
    | some did => cases h
  | succ f ih =>
    intro c ctx res h
    cases c with
    | none =>
      rw [iterEmit_none] at h
      injection h with h
      subst h
      rfl
    | some did =>
      simp only [iterEmit] at h
      repeat' split at h
      all_goals
        first
          | exact Option.noConfusion h
          | (injection h with h; subst h; rfl)
          | exact ih h

theorem yufsIterChildren_ret {σ : Type} {s : State} {md : Nat}
    {cb : σ → String → Nat → Nat → Nat → σ × Bool} {ctx : σ} {off f : Nat} {res : σ × Int}
    (h : yufsIterChildren s md cb ctx off f = some res) : res.2 = 0 := by
  unfold yufsIterChildren at h
  repeat'
    first
      | split at h
      | dsimp only at h
  all_goals
    first
      | exact Option.noConfusion h
      | exact iterEmit_ret h

theorem yufsIterDots_ret {σ : Type} {s : State} {md : Nat}
    {cb : σ → String → Nat → Nat → Nat → σ × Bool} {ctx : σ} {off f : Nat} {res : σ × Int}
    (h : yufsIterDots s md cb ctx off f = some res) : res.2 = 0 := by
  unfold yufsIterDots at h
  repeat'
    first
      | split at h
      | dsimp only at h
  all_goals
    first
      | exact Option.noConfusion h
      | (injection h with h; subst h; rfl)
      | exact yufsIterChildren_ret h

/-- Claim C3 (confirmed).  For a live directory and the always-accepting
collecting callback, iterating from offset 0 emits `"."` with the
directory's own id and mode, then `".."` with the id and mode of the
inode of the primary dentry's parent (the directory itself at the root),
then the children of the sibling list in traversal order; from offset
`n ≥ 2` it starts at the `(n − 2)`-th child; and whenever the iterator
completes (any callback, any offset), it returns success (0). -/
theorem iterate_emission_order
    (s : State) (id : Nat) (ino : YUFS_Inode) (md pdid : Nat) (dmd pdd : YUFS_Dirent)
    (pino : YUFS_Inode) (kids : List Nat) (fuel : Nat)
    (hlt : id < MAX_FILES) (hino : s.inodeTable id = some ino)
    (hdir : S_ISDIR ino.mode = true) (hmd : ino.main_dentry = some md)
    (hdmd : s.dentries md = some dmd) (hpar : dmd.parent = some pdid)
    (hpdd : s.dentries pdid = some pdd) (hpmax : pdd.inode_id < MAX_FILES)
    (hpino : s.inodeTable pdd.inode_id = some pino)
    (hchain : chainDids s fuel dmd.first_child = some kids)
    (hlive : ∀ did ∈ kids, ∃ d, s.dentries did = some d ∧ d.inode_id < MAX_FILES ∧
        (s.inodeTable d.inode_id).isSome = true) :
    YUFSCore_iterate s id collectCb [] 0 fuel =
      some ([(".", 1, ino.id, ino.mode), ("..", 2, pino.id, pino.mode)] ++
        childEmissions s kids, 0) ∧
    (∀ n, 2 ≤ n → YUFSCore_iterate s id collectCb [] n fuel =
      some ((childEmissions s kids).drop (n - 2), 0)) ∧
    (∀ (σ : Type) (cb : σ → String → Nat → Nat → Nat → σ × Bool) (ctx : σ) (n f : Nat)
      (res : σ × Int), YUFSCore_iterate s id cb ctx n f = some res → res.2 = 0) := by
  have hchildren : ∀ (acc : List Emission) (off : Nat), 2 ≤ off →
      yufsIterChildren s md collectCb acc off fuel =
        some (acc ++ childEmissions s (kids.drop (off - 2)), 0) := by
    intro acc off hoff
    unfold yufsIterChildren
    simp only [hdmd]
    have hskipval : (if off > 2 then off - 2 else 0) = off - 2 := by
      by_cases h : off > 2
      · rw [if_pos h]
      · rw [if_neg h]
        omega
    rw [hskipval]
    obtain ⟨c', hskip, hch'⟩ := iterSkip_chain (off - 2) hchain
    rw [hskip]
    exact iterEmit_collect hch' (fun did hm => hlive did (List.mem_of_mem_drop hm)) acc
  refine ⟨?_, ?_, ?_⟩
  · unfold YUFSCore_iterate
    rw [if_neg (by omega : ¬ id ≥ MAX_FILES)]
    simp only [hino]
    rw [if_neg (by simp [hdir])]
    simp only [hmd, if_true]
    simp only [collectCb]
    unfold yufsIterDots
    simp only [if_true]
    simp only [hdmd, hpar, hpdd]
    rw [if_neg (by omega : ¬ pdd.inode_id ≥ MAX_FILES)]
    simp only [hpino, collectCb]
    rw [hchildren _ 2 (by omega)]
    simp
  · intro n hn
    unfold YUFSCore_iterate
    rw [if_neg (by omega : ¬ id ≥ MAX_FILES)]
    simp only [hino]
    rw [if_neg (by simp [hdir])]
    simp only [hmd]
    rw [if_neg (by omega : ¬ n = 0)]
    unfold yufsIterDots
    rw [if_neg (by omega : ¬ n = 1)]
    rw [hchildren [] n hn]
    rw [childEmissions_drop kids (n - 2)
      (fun did hm => (hlive did hm).imp (fun d hd => ⟨hd.1, hd.2.2⟩))]
    simp
  · intro σ cb ctx n f res h
    unfold YUFSCore_iterate at h
    rw [if_neg (by omega : ¬ id ≥ MAX_FILES)] at h
    simp only [hino] at h
    rw [if_neg (by simp [hdir])] at h
    simp only [hmd] at h
    split at h
    · split at h
      · injection h with h
        subst h
        rfl
      · exact yufsIterDots_ret h
    · exact yufsIterDots_ret h

/-- Witness for C3: iterating the root of `sAA` (children: the duplicate
"a" dentries for inodes 2 and 1, in LIFO order) from offsets 0 and 3. -/
theorem iterate_emission_order_witness :
    YUFSCore_iterate sAA 1000 collectCb [] 0 4 =
      some ([(".", 1, 1000, S_IFDIR ||| 511), ("..", 2, 1000, S_IFDIR ||| 511)] ++
        childEmissions sAA [2, 1], 0) ∧
    YUFSCore_iterate sAA 1000 collectCb [] 3 4 =
      some ((childEmissions sAA [2, 1]).drop 1, 0) := by
  have h := iterate_emission_order sAA 1000
    { id := 1000, mode := S_IFDIR ||| 511, nlink := 1, content := none, size := 0,
      main_dentry := some 0 }
    0 0
    { name := "", inode_id := 1000, parent := some 0, first_child := some 2,
      next_sibling := none, prev_sibling := none }
    { name := "", inode_id := 1000, parent := some 0, first_child := some 2,
      next_sibling := none, prev_sibling := none }
    { id := 1000, mode := S_IFDIR ||| 511, nlink := 1, content := none, size := 0,
      main_dentry := some 0 }
    [2, 1] 4
    (by decide) rfl (by decide) rfl rfl rfl rfl (by decide) rfl rfl
    (by
      intro did hm
      simp only [List.mem_cons, List.not_mem_nil, or_false] at hm
      rcases hm with rfl | rfl
      · exact ⟨{ name := "a", inode_id := 2, parent := some 0, first_child := none,
                 next_sibling := some 1, prev_sibling := none }, rfl, by decide, rfl⟩
      · exact ⟨{ name := "a", inode_id := 1, parent := some 0, first_child := none,
                 next_sibling := none, prev_sibling := some 2 }, rfl, by decide, rfl⟩)
  exact ⟨h.1, h.2.1 3 (by omega)⟩

theorem walkFind_none {s : State} {name : String} (f : Nat) :
    walkFind s f none name = some none := by
  cases f <;> rfl

theorem walkFind_of_chain {s : State} {name : String} : ∀ {f : Nat} {c : Option Nat}
    {kids : List Nat}, chainDids s f c = some kids →
    walkFind s f c name = some (kids.find? (fun k =>
      match s.dentries k with
      | some dd => dd.name == name
      | none => false)) := by
  intro f
  induction f with
  | zero =>
    intro c kids hch
    cases c with
    | none =>
      rw [chainDids_none] at hch
      injection hch with hch
      subst hch
      rfl
    | some did => cases hch
  | succ f ih =>
    intro c kids hch
    cases c with
    | none =>
      rw [chainDids_none] at hch
      injection hch with hch
      subst hch
      exact walkFind_none (f + 1)
    | some did =>
      simp only [chainDids] at hch
      cases hd : s.dentries did with
      | none => rw [hd] at hch; cases hch
      | some d =>
        rw [hd] at hch
        obtain ⟨l', htail, hk⟩ := Option.map_eq_some'.mp hch
        subst hk
        simp only [walkFind, hd]
        by_cases hn : d.name = name
        · rw [if_pos hn]
          simp [List.find?_cons, hd, hn]
        · rw [if_neg hn]
          rw [ih htail]
          simp [List.find?_cons, hd, hn]

/-- Claim C5 (corrected).  The lookup/child-list agreement only holds for
the *first* dentry bearing its name in traversal order: `find_child`
returns the first match, so with duplicate names (which insertion does
not reject) a shadowed dentry's lookup returns the first duplicate's id.
For a first-match dentry `d` whose inode is live (with the reachable
id consistency `ino.id = d.inode_id` of C10), lookup succeeds and the
stat's id equals `d.inode_id`. -/
theorem dentry_lookup_amended
    (s : State) (pid : Nat) (pnode : YUFS_Inode) (md : Nat) (dmd : YUFS_Dirent)
    (kids : List Nat) (did : Nat) (d : YUFS_Dirent) (ino : YUFS_Inode)
    (hlt : pid < MAX_FILES) (hp : s.inodeTable pid = some pnode)
    (hdir : S_ISDIR pnode.mode = true) (hmd : pnode.main_dentry = some md)
    (hdmd : s.dentries md = some dmd)
    (hchain : chainDids s (s.nextDid + 1) dmd.first_child = some kids)
    (hfind : kids.find? (fun k =>
      match s.dentries k with
      | some dd => dd.name == d.name
      | none => false) = some did)
    (hd : s.dentries did = some d)
    (hmax : d.inode_id < MAX_FILES) (hino : s.inodeTable d.inode_id = some ino)
    (hid : ino.id = d.inode_id) :
    YUFSCore_lookup s pid d.name =
      some (0, some { id := d.inode_id, mode := ino.mode, size := ino.size }) := by
  unfold YUFSCore_lookup
  rw [if_neg (by omega : ¬ pid ≥ MAX_FILES)]
  simp only [hp]
  rw [if_neg (by simp [hdir])]
  simp only [hmd]
  unfold find_child
  simp only [hdmd]
  rw [walkFind_of_chain hchain, hfind]
  simp only [hd]
  rw [if_neg (by omega : ¬ d.inode_id ≥ MAX_FILES)]
  simp only [hino]
  rw [hid]

/-- Counterexample to claim C5 as stated: in the reachable state `sAA`,
the dentry at arena index 1 (`name "a"`, `inode_id 1`) sits in the root's
child list (`[2, 1]`), but `lookup(1000, "a")` returns a stat with
`id = 2` — the head duplicate — not 1. -/
theorem dentry_lookup_cex :
    Reachable sAA ∧
    sAA.inodeTable 1000 = some { id := 1000, mode := S_IFDIR ||| 511, nlink := 1,
                                 content := none, size := 0, main_dentry := some 0 } ∧
    sAA.dentries 0 = some { name := "", inode_id := 1000, parent := some 0,
                            first_child := some 2, next_sibling := none,
                            prev_sibling := none } ∧
    chainDids sAA (sAA.nextDid + 1) (some 2) = some [2, 1] ∧
    sAA.dentries 1 = some { name := "a", inode_id := 1, parent := some 0,
                            first_child := none, next_sibling := none,
                            prev_sibling := some 2 } ∧
    YUFSCore_lookup sAA 1000 "a" = some (0, some { id := 2, mode := regMode, size := 0 }) := by
  refine ⟨?_, rfl, rfl, rfl, rfl, rfl⟩
  exact Reachable.create sA 1000 "a" regMode 0 (some { id := 2, mode := regMode, size := 0 }) sAA
    (Reachable.create sInit 1000 "a" regMode 0 (some { id := 1, mode := regMode, size := 0 }) sA
      (Reachable.init 0 sInit rfl) rfl) rfl

/-- Witness for the amended C5 at the first-match dentry (arena index 2,
`inode_id 2`) of `sAA`. -/
theorem dentry_lookup_amended_witness :
    YUFSCore_lookup sAA 1000 "a" = some (0, some { id := 2, mode := regMode, size := 0 }) :=
  dentry_lookup_amended sAA 1000
    { id := 1000, mode := S_IFDIR ||| 511, nlink := 1, content := none, size := 0,
      main_dentry := some 0 }
    0
    { name := "", inode_id := 1000, parent := some 0, first_child := some 2,
      next_sibling := none, prev_sibling := none }
    [2, 1] 2
    { name := "a", inode_id := 2, parent := some 0, first_child := none,
      next_sibling := some 1, prev_sibling := none }
    { id := 2, mode := regMode, nlink := 1, content := none, size := 0, main_dentry := none }
    (by decide) rfl (by decide) rfl rfl rfl rfl rfl (by decide) rfl rfl

/-- Claim C4 (corrected).  `lookup`, `create` and `link` do fail cleanly
(returning -1, state unchanged) for every kind of bad parent — out of
range, empty slot, or a live regular-file inode.  But `unlink` and
`rmdir` never check that the parent is a directory: they fail cleanly
only for out-of-range and empty-slot parents; when the parent is a live
regular-file inode its `main_dentry` is `NULL`, and `find_child`
dereferences that null pointer (undefined behaviour, modelled `none`)
instead of failing with `ENOENT`. -/
theorem parent_validation_amended :
    (∀ (s : State) (p : Nat) (nm : String), MAX_FILES ≤ p ∨ s.inodeTable p = none →
      YUFSCore_lookup s p nm = some (-1, none) ∧
      (∀ md, YUFSCore_create s p nm md = some (-1, none, s)) ∧
      (∀ t, YUFSCore_link s t p nm = some (-1, s)) ∧
      YUFSCore_unlink s p nm = some (-1, s) ∧
      YUFSCore_rmdir s p nm = some (-1, s)) ∧
    (∀ (s : State) (p : Nat) (nm : String) (node : YUFS_Inode),
      s.inodeTable p = some node → p < MAX_FILES → S_ISREG node.mode = true →
      YUFSCore_lookup s p nm = some (-1, none) ∧
      (∀ md, YUFSCore_create s p nm md = some (-1, none, s)) ∧
      (∀ t, YUFSCore_link s t p nm = some (-1, s)) ∧
      (node.main_dentry = none →
        YUFSCore_unlink s p nm = none ∧ YUFSCore_rmdir s p nm = none)) := by
  constructor
  · intro s p nm hbad
    by_cases h1 : p ≥ MAX_FILES
    · refine ⟨?_, fun md => ?_, fun t => ?_, ?_, ?_⟩
      · unfold YUFSCore_lookup
        rw [if_pos h1]
      · unfold YUFSCore_create
        rw [if_pos h1]
      · unfold YUFSCore_link
        by_cases h2 : t ≥ MAX_FILES
        · rw [if_pos h2]
        · rw [if_neg h2]
          cases htt : s.inodeTable t with
          | none => rfl
          | some targetInode =>
            simp only
            rw [if_pos h1]
      · unfold YUFSCore_unlink
        rw [if_pos h1]
      · unfold YUFSCore_rmdir
        rw [if_pos h1]
    · have hnone : s.inodeTable p = none := by
        rcases hbad with hb | hb
        · omega
        · exact hb
      refine ⟨?_, fun md => ?_, fun t => ?_, ?_, ?_⟩
      · unfold YUFSCore_lookup
        rw [if_neg h1]
        simp only [hnone]
      · unfold YUFSCore_create
        rw [if_neg h1]
        simp only [hnone]
      · unfold YUFSCore_link
        by_cases h2 : t ≥ MAX_FILES
        · rw [if_pos h2]
        · rw [if_neg h2]
          cases htt : s.inodeTable t with
          | none => rfl
          | some targetInode =>
            simp only
            rw [if_neg h1]
            simp only [hnone]
      · unfold YUFSCore_unlink
        rw [if_neg h1]
        simp only [hnone]
      · unfold YUFSCore_rmdir
        rw [if_neg h1]
        simp only [hnone]
  · intro s p nm node hp hlt hreg
    have hdir := isreg_not_isdir hreg
    refine ⟨?_, fun md => ?_, fun t => ?_, fun hmd => ⟨?_, ?_⟩⟩
    · unfold YUFSCore_lookup
      rw [if_neg (by omega : ¬ p ≥ MAX_FILES)]
      simp only [hp]
      rw [if_pos (by simp [hdir])]
    · unfold YUFSCore_create
      rw [if_neg (by omega : ¬ p ≥ MAX_FILES)]
      simp only [hp]
      rw [if_pos (by simp [hdir])]
    · unfold YUFSCore_link
      by_cases h2 : t ≥ MAX_FILES
      · rw [if_pos h2]
      · rw [if_neg h2]
        cases htt : s.inodeTable t with
        | none => rfl
        | some targetInode =>
          simp only
          rw [if_neg (by omega : ¬ p ≥ MAX_FILES)]
          simp only [hp]
          by_cases h3 : S_ISDIR targetInode.mode = true
          · rw [if_pos h3]
          · rw [if_neg h3, if_pos (by simp [hdir])]
    · unfold YUFSCore_unlink
      rw [if_neg (by omega : ¬ p ≥ MAX_FILES)]
      simp only [hp, hmd]
      rfl
    · unfold YUFSCore_rmdir
      rw [if_neg (by omega : ¬ p ≥ MAX_FILES)]
      simp only [hp, hmd]
      rfl

/-- Counterexample to claim C4 as stated: in the reachable state `sA`,
inode 1 is a live regular file; `unlink(1, "x")` does not fail with
`ENOENT` and an unchanged state — it dereferences the regular file's
`NULL` `main_dentry` (undefined behaviour, modelled `none`). -/
theorem parent_validation_cex :
    Reachable sA ∧
    sA.inodeTable 1 = some { id := 1, mode := regMode, nlink := 1, content := none,
                             size := 0, main_dentry := none } ∧
    S_ISREG regMode = true ∧
    YUFSCore_unlink sA 1 "x" = none ∧
    YUFSCore_unlink sA 1 "x" ≠ some (-1, sA) ∧
    YUFSCore_rmdir sA 1 "x" = none := by
  refine ⟨?_, rfl, by decide, rfl, ?_, rfl⟩
  · exact Reachable.create sInit 1000 "a" regMode 0
      (some { id := 1, mode := regMode, size := 0 }) sA (Reachable.init 0 sInit rfl) rfl
  · rw [show YUFSCore_unlink sA 1 "x" = none from rfl]
    simp

/-- Witness for the amended C4 at concrete inputs: an out-of-range
parent, an empty slot, and the live regular file of `sA`. -/
theorem parent_validation_witness :
    YUFSCore_lookup sInit 2000 "z" = some (-1, none) ∧
    YUFSCore_unlink sInit 7 "z" = some (-1, sInit) ∧
    YUFSCore_lookup sA 1 "z" = some (-1, none) ∧
    YUFSCore_unlink sA 1 "z" = none :=
  ⟨(parent_validation_amended.1 sInit 2000 "z" (Or.inl (by decide))).1,
    (parent_validation_amended.1 sInit 7 "z" (Or.inr rfl)).2.2.2.1,
    (parent_validation_amended.2 sA 1 "z"
      { id := 1, mode := regMode, nlink := 1, content := none, size := 0, main_dentry := none }
      rfl (by decide) (by decide)).1,
    ((parent_validation_amended.2 sA 1 "z"
      { id := 1, mode := regMode, nlink := 1, content := none, size := 0, main_dentry := none }
      rfl (by decide) (by decide)).2.2.2 rfl).1⟩

theorem walkFind_congr {s s' : State} {name : String}
    (hview : ∀ j, (s'.dentries j).map (fun d => (d.name, d.inode_id, d.first_child, d.next_sibling))
        = (s.dentries j).map (fun d => (d.name, d.inode_id, d.first_child, d.next_sibling))) :
    ∀ {f f' : Nat} {c : Option Nat} {r : Option Nat}, f ≤ f' →
      walkFind s f c name = some r → walkFind s' f' c name = some r := by
  intro f
  induction f with
  | zero =>
    intro f' c r hle h
    cases c with
    | none =>
      rw [walkFind_none] at h
      injection h with h
      subst h
      exact walkFind_none f'
    | some did => cases h
  | succ f ih =>
    intro f' c r hle h
    cases c with
    | none =>
      rw [walkFind_none] at h
      injection h with h
      subst h
      exact walkFind_none f'
    | some did =>
      simp only [walkFind] at h
      cases hd : s.dentries did with
      | none => rw [hd] at h; cases h
      | some d =>
        simp only [hd] at h
        have hv := hview did
        rw [hd] at hv
        obtain ⟨d', hd', hvd⟩ := Option.map_eq_some'.mp hv
        simp only [Prod.mk.injEq] at hvd
        obtain ⟨hv1, hv2, hv3, hv4⟩ := hvd
        obtain ⟨f'', rfl⟩ : ∃ f'', f' = f'' + 1 := ⟨f' - 1, by omega⟩
        simp only [walkFind, hd']
        by_cases hn : d.name = name
        · rw [if_pos hn] at h
          rw [if_pos (by rw [hv1]; exact hn)]
          exact h
        · rw [if_neg hn] at h
          rw [if_neg (by rw [hv1]; exact hn), hv4]
          exact ih (by omega) h

theorem lookup_congr {s s' : State} {D : Nat} {nm : String} {st : YUFS_stat}
    (htab : ∀ j, s'.inodeTable j = s.inodeTable j)
    (hview : ∀ j, (s'.dentries j).map (fun d => (d.name, d.inode_id, d.first_child, d.next_sibling))
        = (s.dentries j).map (fun d => (d.name, d.inode_id, d.first_child, d.next_sibling)))
    (hnd : s.nextDid ≤ s'.nextDid)
    (h : YUFSCore_lookup s D nm = some (0, some st)) :
    YUFSCore_lookup s' D nm = some (0, some st) := by
  unfold YUFSCore_lookup at h ⊢
  by_cases h1 : D ≥ MAX_FILES
  · rw [if_pos h1] at h
    simp at h
  · rw [if_neg h1] at h
    rw [if_neg h1]
    cases hpt : s.inodeTable D with
    | none => rw [hpt] at h; simp at h
    | some pn =>
      simp only [hpt] at h
      simp only [htab, hpt]
      by_cases h2 : S_ISDIR pn.mode = true
      · rw [if_neg (by simp [h2])] at h ⊢
        cases hmd : pn.main_dentry with
        | none => rw [hmd] at h; simp at h
        | some md =>
          simp only [hmd] at h ⊢
          unfold find_child at h ⊢
          dsimp only at h ⊢
          cases hdm : s.dentries md with
          | none => simp only [hdm] at h; cases h
          | some dmd =>
            simp only [hdm] at h
            have hv := hview md
            rw [hdm] at hv
            obtain ⟨dmd', hdm', hvd⟩ := Option.map_eq_some'.mp hv
            simp only [Prod.mk.injEq] at hvd
            obtain ⟨hv1, hv2, hv3, hv4⟩ := hvd
            simp only [hdm']
            cases hw : walkFind s (s.nextDid + 1) dmd.first_child nm with
            | none => rw [hw] at h; cases h
            | some oc =>
              rw [hw] at h
              have hw' : walkFind s' (s'.nextDid + 1) dmd'.first_child nm = some oc := by
                rw [hv3]
                exact walkFind_congr hview (by omega) hw
              rw [hw']
              cases oc with
              | none => simp at h
              | some cdid =>
                simp only at h ⊢
                cases hcd : s.dentries cdid with
                | none => rw [hcd] at h; cases h
                | some child =>
                  simp only [hcd] at h
                  have hvc := hview cdid
                  rw [hcd] at hvc
                  obtain ⟨child', hcd', hvcd⟩ := Option.map_eq_some'.mp hvc
                  simp only [Prod.mk.injEq] at hvcd
                  obtain ⟨hc1, hc2, hc3, hc4⟩ := hvcd
                  simp only [hcd']
                  by_cases h3 : child.inode_id ≥ MAX_FILES
                  · rw [if_pos h3] at h; cases h
                  · rw [if_neg h3] at h
                    rw [if_neg (by rw [hc2]; exact h3)]
                    simp only [hc2, htab]
                    cases hti : s.inodeTable child.inode_id with
                    | none => rw [hti] at h; simp at h
                    | some ino =>
                      simp only [hti] at h
                      simp only [hti]
                      exact h
      · rw [if_pos (by simp [h2])] at h
        simp at h

/-- Claim C7 (confirmed).  For a live regular file `X` (with `nlink ≥ 1`)
reachable as `oname` in some directory `D`, and a live directory parent
`P` whose primary dentry and first child satisfy the structural facts
that hold in every reachable state (fresh arena slot empty, first child
live and distinct from the primary dentry), a successful
`link(X, P, newname)` followed by `unlink(P, newname)` leaves the
original name reachable with the same stat and restores `X`'s inode —
in particular its `nlink` — exactly to its prior value. -/
theorem link_unlink_roundtrip
    (s : State) (X P pd : Nat) (xnode pnode : YUFS_Inode) (pdd : YUFS_Dirent)
    (newname : String) (D : Nat) (oname : String) (st : YUFS_stat)
    (hXlt : X < MAX_FILES) (hX : s.inodeTable X = some xnode)
    (hxreg : S_ISREG xnode.mode = true) (hnl : 1 ≤ xnode.nlink)
    (hPlt : P < MAX_FILES) (hP : s.inodeTable P = some pnode)
    (hpdir : S_ISDIR pnode.mode = true) (hmd : pnode.main_dentry = some pd)
    (hpdd : s.dentries pd = some pdd) (hfresh : s.dentries s.nextDid = none)
    (hfc : ∀ fc, pdd.first_child = some fc → fc ≠ pd ∧ ∃ fcd, s.dentries fc = some fcd)
    (hnew : newname.length < MAX_NAME_SIZE)
    (hlook : YUFSCore_lookup s D oname = some (0, some st)) :
    ∃ s1 s2, YUFSCore_link s X P newname = some (0, s1) ∧
      YUFSCore_unlink s1 P newname = some (0, s2) ∧
      YUFSCore_lookup s2 D oname = some (0, some st) ∧
      s2.inodeTable X = some xnode := by
  have hdirX : S_ISDIR xnode.mode = false := isreg_not_isdir hxreg
  have hPX : P ≠ X := by
    intro he
    rw [he, hX] at hP
    injection hP with hP
    rw [← hP] at hpdir
    exact absurd hpdir (by simp [hdirX])
  have hndpd : pd ≠ s.nextDid := by
    intro he
    rw [he, hfresh] at hpdd
    cases hpdd
  obtain ⟨sAl, hsAl⟩ : ∃ t, t = ({ s with
      dentries := fun j => if j = s.nextDid then
        some { name := newname, inode_id := X, parent := none, first_child := none,
               next_sibling := none, prev_sibling := none }
        else s.dentries j,
      nextDid := s.nextDid + 1 } : State) := ⟨_, rfl⟩
  have halloc : allocDirent s newname X = some (s.nextDid, sAl) := by
    rw [hsAl]
    unfold allocDirent
    rw [if_neg (by omega : ¬ newname.length ≥ MAX_NAME_SIZE)]
  have hAlnd : sAl.dentries s.nextDid =
      some { name := newname, inode_id := X, parent := none, first_child := none,
             next_sibling := none, prev_sibling := none } := by
    rw [hsAl]
    simp
  have hAlpd : sAl.dentries pd = some pdd := by
    rw [hsAl]
    simp [hndpd, hpdd]
  have hAlother : ∀ j, j ≠ s.nextDid → sAl.dentries j = s.dentries j := by
    intro j hj
    rw [hsAl]
    simp [hj]
  have hAltab : ∀ j, sAl.inodeTable j = s.inodeTable j := by
    intro j
    rw [hsAl]
  have hAlnext : sAl.nextDid = s.nextDid + 1 := by rw [hsAl]
  cases hfcc : pdd.first_child with
  | none =>
    obtain ⟨sF, hsF⟩ : ∃ t, t = setDent (setDent (setDent sAl s.nextDid
        (some { name := newname, inode_id := X, parent := some pd, first_child := none,
                next_sibling := none, prev_sibling := none })) s.nextDid
        (some { name := newname, inode_id := X, parent := some pd, first_child := none,
                next_sibling := pdd.first_child, prev_sibling := none })) pd
        (some { pdd with first_child := some s.nextDid }) := ⟨_, rfl⟩
    have hattach : attach_dentry sAl pd s.nextDid = some sF := by
      rw [hsF]
      unfold attach_dentry attach_prevfix attach_finish
      simp only [hAlnd, dentries_setDent, if_pos, hndpd, if_neg, hAlpd, hfcc]
      simp [hndpd, hAlpd, hfcc]
    obtain ⟨sL, hsL⟩ : ∃ t, t = setInode sF X (some { xnode with nlink := xnode.nlink + 1 }) :=
      ⟨_, rfl⟩
    have hlink : YUFSCore_link s X P newname = some (0, sL) := by
      rw [hsL]
      unfold YUFSCore_link
      rw [if_neg (by omega : ¬ X ≥ MAX_FILES)]
      simp only [hX]
      rw [if_neg (by omega : ¬ P ≥ MAX_FILES)]
      simp only [hP]
      rw [if_neg (by simp [hdirX]), if_neg (by simp [hpdir])]
      simp only [halloc, hmd, hattach]
    have hLtab : ∀ j, sL.inodeTable j =
        if j = X then some { xnode with nlink := xnode.nlink + 1 } else s.inodeTable j := by
      intro j
      rw [hsL, hsF]
      by_cases hj : j = X
      · simp [inodeTable_setInode, inodeTable_setDent, hj]
      · simp [inodeTable_setInode, inodeTable_setDent, hj, hAltab]
    have hLP : sL.inodeTable P = some pnode := by
      rw [hLtab, if_neg hPX]
      exact hP
    have hLX : sL.inodeTable X = some { xnode with nlink := xnode.nlink + 1 } := by
      rw [hLtab, if_pos rfl]
    have hLnd : sL.dentries s.nextDid =
        some { name := newname, inode_id := X, parent := some pd, first_child := none,
               next_sibling := pdd.first_child, prev_sibling := none } := by
      rw [hsL, hsF]
      simp [dentries_setInode, dentries_setDent, Ne.symm hndpd]
    have hLpd : sL.dentries pd = some { pdd with first_child := some s.nextDid } := by
      rw [hsL, hsF]
      simp [dentries_setInode, dentries_setDent]
    have hLother : ∀ j, j ≠ s.nextDid → j ≠ pd → sL.dentries j = s.dentries j := by
      intro j hj1 hj2
      rw [hsL, hsF]
      simp [dentries_setInode, dentries_setDent, hj1, hj2, hAlother j hj1]
    have hLnext : sL.nextDid = s.nextDid + 1 := by
      rw [hsL, hsF]
      simp [hsAl, setDent, setInode]
    have hwf : walkFind sL (sL.nextDid + 1) (some s.nextDid) newname = some (some s.nextDid) := by
      rw [hLnext]
      simp only [walkFind, hLnd]
      simp
    obtain ⟨s2, hs2⟩ : ∃ t, t = setInode (setDent (setDent sL pd
        (some { pdd with first_child := pdd.first_child })) s.nextDid none) X
        (some xnode) := ⟨_, rfl⟩
    have hsplice : spliceOut sL
        { name := newname, inode_id := X, parent := some pd, first_child := none,
          next_sibling := pdd.first_child, prev_sibling := none } =
        some (setDent sL pd (some { pdd with first_child := pdd.first_child })) := by
      unfold spliceOut spliceFixNext
      try dsimp only
      simp only [hLpd]
      rw [hfcc]
    have hunlink : YUFSCore_unlink sL P newname = some (0, s2) := by
      rw [hs2]
      unfold YUFSCore_unlink
      rw [if_neg (by omega : ¬ P ≥ MAX_FILES)]
      simp only [hLP]
      unfold find_child
      simp only [hmd]
      try dsimp only
      simp only [hLpd]
      try dsimp only
      rw [hwf]
      try dsimp only
      simp only [hLnd]
      try dsimp only
      rw [if_neg (by omega : ¬ X ≥ MAX_FILES)]
      simp only [hLX]
      try dsimp only
      rw [if_neg (by simp [hdirX])]
      simp only [hsplice]
      try dsimp only
      rw [if_neg (by omega : ¬ xnode.nlink + 1 - 1 ≤ 0)]
      rw [show xnode.nlink + 1 - 1 = xnode.nlink from by omega]
    have htab2 : ∀ j, s2.inodeTable j = s.inodeTable j := by
      intro j
      rw [hs2]
      by_cases hj : j = X
      · subst hj
        simp [inodeTable_setInode, inodeTable_setDent, hX]
      · simp [inodeTable_setInode, inodeTable_setDent, hj, hLtab]
    have hview2 : ∀ j, (s2.dentries j).map
        (fun d => (d.name, d.inode_id, d.first_child, d.next_sibling)) = (s.dentries j).map
        (fun d => (d.name, d.inode_id, d.first_child, d.next_sibling)) := by
      intro j
      rw [hs2]
      by_cases hj1 : j = s.nextDid
      · subst hj1
        simp [dentries_setInode, dentries_setDent, hfresh]
      · by_cases hj2 : j = pd
        · subst hj2
          simp [dentries_setInode, dentries_setDent, hj1, hpdd]
        · simp [dentries_setInode, dentries_setDent, hj1, hj2, hLother j hj1 hj2]
    have hnd2 : s.nextDid ≤ s2.nextDid := by
      rw [hs2]
      simp [dentries_setInode, dentries_setDent, setInode, setDent, hLnext]
    have hX2 : s2.inodeTable X = some xnode := by
      rw [hs2]
      simp [inodeTable_setInode]
    exact ⟨sL, s2, hlink, hunlink, lookup_congr htab2 hview2 hnd2 hlook, hX2⟩
  | some fc =>
    obtain ⟨hfcpd, fcd, hfcd⟩ := hfc fc hfcc
    have hfcnd : fc ≠ s.nextDid := by
      intro he
      rw [he, hfresh] at hfcd
      cases hfcd
    obtain ⟨sF, hsF⟩ : ∃ t, t = setDent (setDent (setDent (setDent sAl s.nextDid
        (some { name := newname, inode_id := X, parent := some pd, first_child := none,
                next_sibling := none, prev_sibling := none })) s.nextDid
        (some { name := newname, inode_id := X, parent := some pd, first_child := none,
                next_sibling := pdd.first_child, prev_sibling := none })) fc
        (some { fcd with prev_sibling := some s.nextDid })) pd
        (some { pdd with first_child := some s.nextDid }) := ⟨_, rfl⟩
    have hattach : attach_dentry sAl pd s.nextDid = some sF := by
      rw [hsF]
      unfold attach_dentry attach_prevfix attach_finish
      simp only [hAlnd, dentries_setDent, hndpd, hAlpd, hfcc]
      simp [hndpd, hAlpd, hfcc, hfcnd, hfcpd, Ne.symm hfcpd, hAlother fc hfcnd, hfcd]
    obtain ⟨sL, hsL⟩ : ∃ t, t = setInode sF X (some { xnode with nlink := xnode.nlink + 1 }) :=
      ⟨_, rfl⟩
    have hlink : YUFSCore_link s X P newname = some (0, sL) := by
      rw [hsL]
      unfold YUFSCore_link
      rw [if_neg (by omega : ¬ X ≥ MAX_FILES)]
      simp only [hX]
      rw [if_neg (by omega : ¬ P ≥ MAX_FILES)]
      simp only [hP]
      rw [if_neg (by simp [hdirX]), if_neg (by simp [hpdir])]
      simp only [halloc, hmd, hattach]
    have hLtab : ∀ j, sL.inodeTable j =
        if j = X then some { xnode with nlink := xnode.nlink + 1 } else s.inodeTable j := by
      intro j
      rw [hsL, hsF]
      by_cases hj : j = X
      · simp [inodeTable_setInode, inodeTable_setDent, hj]
      · simp [inodeTable_setInode, inodeTable_setDent, hj, hAltab]
    have hLP : sL.inodeTable P = some pnode := by
      rw [hLtab, if_neg hPX]
      exact hP
    have hLX : sL.inodeTable X = some { xnode with nlink := xnode.nlink + 1 } := by
      rw [hLtab, if_pos rfl]
    have hLnd : sL.dentries s.nextDid =
        some { name := newname, inode_id := X, parent := some pd, first_child := none,
               next_sibling := pdd.first_child, prev_sibling := none } := by
      rw [hsL, hsF]
      simp [dentries_setInode, dentries_setDent, Ne.symm hndpd, Ne.symm hfcnd]
    have hLpd : sL.dentries pd = some { pdd with first_child := some s.nextDid } := by
      rw [hsL, hsF]
      simp [dentries_setInode, dentries_setDent]
    have hLfc : sL.dentries fc = some { fcd with prev_sibling := some s.nextDid } := by
      rw [hsL, hsF]
      simp [dentries_setInode, dentries_setDent, hfcpd]
    have hLother : ∀ j, j ≠ s.nextDid → j ≠ pd → j ≠ fc → sL.dentries j = s.dentries j := by
      intro j hj1 hj2 hj3
      rw [hsL, hsF]
      simp [dentries_setInode, dentries_setDent, hj1, hj2, hj3, hAlother j hj1]
    have hLnext : sL.nextDid = s.nextDid + 1 := by
      rw [hsL, hsF]
      simp [hsAl, setDent, setInode]
    have hwf : walkFind sL (sL.nextDid + 1) (some s.nextDid) newname = some (some s.nextDid) := by
      rw [hLnext]
      simp only [walkFind, hLnd]
      simp
    obtain ⟨s2, hs2⟩ : ∃ t, t = setInode (setDent (setDent (setDent sL pd
        (some { pdd with first_child := pdd.first_child })) fc
        (some { fcd with prev_sibling := none })) s.nextDid none) X
        (some xnode) := ⟨_, rfl⟩
    have hsplice : spliceOut sL
        { name := newname, inode_id := X, parent := some pd, first_child := none,
          next_sibling := pdd.first_child, prev_sibling := none } =
        some (setDent (setDent sL pd
          (some { pdd with first_child := pdd.first_child })) fc
          (some { fcd with prev_sibling := none })) := by
      unfold spliceOut spliceFixNext
      try dsimp only
      simp only [hLpd]
      rw [hfcc]
      try dsimp only
      simp only [dentries_setDent, hfcpd, if_neg]
      simp [hfcpd, hLfc]
    have hunlink : YUFSCore_unlink sL P newname = some (0, s2) := by
      rw [hs2]
      unfold YUFSCore_unlink
      rw [if_neg (by omega : ¬ P ≥ MAX_FILES)]
      simp only [hLP]
      unfold find_child
      simp only [hmd]
      try dsimp only
      simp only [hLpd]
      try dsimp only
      rw [hwf]
      try dsimp only
      simp only [hLnd]
      try dsimp only
      rw [if_neg (by omega : ¬ X ≥ MAX_FILES)]
      simp only [hLX]
      try dsimp only
      rw [if_neg (by simp [hdirX])]
      simp only [hsplice]
      try dsimp only
      rw [if_neg (by omega : ¬ xnode.nlink + 1 - 1 ≤ 0)]
      rw [show xnode.nlink + 1 - 1 = xnode.nlink from by omega]
    have htab2 : ∀ j, s2.inodeTable j = s.inodeTable j := by
      intro j
      rw [hs2]
      by_cases hj : j = X
      · subst hj
        simp [inodeTable_setInode, inodeTable_setDent, hX]
      · simp [inodeTable_setInode, inodeTable_setDent, hj, hLtab]
    have hview2 : ∀ j, (s2.dentries j).map
        (fun d => (d.name, d.inode_id, d.first_child, d.next_sibling)) = (s.dentries j).map
        (fun d => (d.name, d.inode_id, d.first_child, d.next_sibling)) := by
      intro j
      rw [hs2]
      by_cases hj1 : j = s.nextDid
      · subst hj1
        simp [dentries_setInode, dentries_setDent, hfresh]
      · by_cases hj2 : j = pd
        · subst hj2
          simp [dentries_setInode, dentries_setDent, hj1, hpdd, Ne.symm hfcpd]
        · by_cases hj3 : j = fc
          · subst hj3
            simp [dentries_setInode, dentries_setDent, hj1, hj2, hfcd]
          · simp [dentries_setInode, dentries_setDent, hj1, hj2, hj3, hLother j hj1 hj2 hj3]
    have hnd2 : s.nextDid ≤ s2.nextDid := by
      rw [hs2]
      simp [dentries_setInode, dentries_setDent, setInode, setDent, hLnext]
    have hX2 : s2.inodeTable X = some xnode := by
      rw [hs2]
      simp [inodeTable_setInode]
    exact ⟨sL, s2, hlink, hunlink, lookup_congr htab2 hview2 hnd2 hlook, hX2⟩


/-- Witness for C7 on `sA`: link inode 1 (file "a") into the root as
"b", unlink "b" again; "a" still resolves to inode 1 with `nlink = 1`. -/
theorem link_unlink_roundtrip_witness :
    ∃ s1 s2, YUFSCore_link sA 1 1000 "b" = some (0, s1) ∧
      YUFSCore_unlink s1 1000 "b" = some (0, s2) ∧
      YUFSCore_lookup s2 1000 "a" = some (0, some { id := 1, mode := regMode, size := 0 }) ∧
      s2.inodeTable 1 = some { id := 1, mode := regMode, nlink := 1, content := none,
                               size := 0, main_dentry := none } :=
  link_unlink_roundtrip sA 1 1000 0
    { id := 1, mode := regMode, nlink := 1, content := none, size := 0, main_dentry := none }
    { id := 1000, mode := S_IFDIR ||| 511, nlink := 1, content := none, size := 0,
      main_dentry := some 0 }
    { name := "", inode_id := 1000, parent := some 0, first_child := some 1,
      next_sibling := none, prev_sibling := none }
    "b" 1000 "a" { id := 1, mode := regMode, size := 0 }
    (by decide) rfl (by decide) (by decide) (by decide) rfl (by decide) rfl rfl rfl
    (by
      intro fc hfce
      injection hfce with hfce
      subst hfce
      exact ⟨by decide, ⟨{ name := "a", inode_id := 1, parent := some 0, first_child := none,
                           next_sibling := none, prev_sibling := none }, rfl⟩⟩)
    (by decide) rfl
